import Mathlib

/-!
# gview: the View of `g/os/gview/gview.go`

A shallow embedding of the template-view registry's `View` type and its
operations, followed by theorems about the variable merge, the function-table
layering, the not-found path, the delimiter pair and the locking discipline.

Modelling conventions.

* Go maps are reference objects.  A map value is an address into a `Heap`;
  the nil map is `none`.  The contents of a map object are a Mathlib `AList`
  (unique keys; inserting an existing key overwrites).  A `range` loop visits
  the entries in the order of the entry list; Go leaves that order unspecified,
  and every theorem below holds for every entry list, hence for every order.
* Go strings and byte slices are both modelled as `String`; the conversions
  between them are the identity.
* Every operation returns an `Out`: the Go return value, the heap after the
  call, and the events the call performed, oldest first (lock traffic, calls to
  the external collaborators, stores to maps and to the delimiter slice).
* The external collaborators (`gspath`, `gfcache`, `ghash`/`gconv`, and the
  parse and execute steps of `html/template`) are the fields of `Collab`.
  They are black boxes; they read map contents but never store to a map.
-/

set_option linter.dupNamespace false

namespace gview

/-- Addresses of heap objects. -/
abbrev Addr := Nat

/-- The three methods of a View that `New` binds as template functions. -/
inductive Method
  | funcText
  | funcHtml
  | funcInclude
  deriving DecidableEq, Repr

/-- Go `interface{}` values as far as this package handles them: it stores and
forwards them and never inspects them.  `method recv m` is the method value
`recv.m` of the View object `recv`. -/
inductive Value
  | null
  | str (s : String)
  | int (n : Int)
  | method (recv : Addr) (m : Method)
  | func (id : Nat)
  deriving DecidableEq, Repr

/-- Contents of a `map[string]interface{}` object (`Params`, `FuncMap`). -/
abbrev GoMap := AList (fun _ : String => Value)

/-- Go `len(m)` on the contents of a map. -/
def GoMap.len (m : GoMap) : Nat := m.entries.length

/-- An error value made by a collaborator (`gspath`, `html/template`); the
package forwards such values and never builds one. -/
structure ExtError where
  msg : String
  deriving DecidableEq, Repr

/-- Go error values by origin: `errorsNew msg` is the value this package makes
with `errors.New(msg)`, `ext e` is a value a collaborator returned. -/
inductive Error
  | errorsNew (msg : String)
  | ext (e : ExtError)
  deriving DecidableEq, Repr

/-- Go `err.Error()`. -/
def Error.Error : Error → String
  | .errorsNew msg => msg
  | .ext e => e.msg

/-- The heap of map objects: `maps a` is the contents of the map at address `a`
for `a < next`; `objects` counts the View objects allocated so far. -/
structure Heap where
  maps : Addr → GoMap
  next : Addr
  objects : Nat

/-- Contents of the map a reference points to; the nil map and an unallocated
address have no entries. -/
def Heap.read (h : Heap) : Option Addr → GoMap
  | none => ∅
  | some a => if a < h.next then h.maps a else ∅

/-- Go `make(map[string]interface{})`: a fresh empty map object. -/
def Heap.makeMap (h : Heap) : Addr × Heap :=
  (h.next, { h with maps := Function.update h.maps h.next ∅, next := h.next + 1 })

/-- Go `m[k] = v` on the map object at address `a`.  A store through an
unallocated address changes nothing; the package never makes one (Go would
stop with a run-time error on a nil map). -/
def Heap.store (h : Heap) (a : Addr) (k : String) (v : Value) : Heap :=
  if a < h.next then { h with maps := Function.update h.maps a ((h.maps a).insert k v) } else h

/-- Go `for k, v := range src { dst[k] = v }`, `src` being the entries visited. -/
def Heap.rangeStore (h : Heap) (dst : Addr) (src : List (Sigma fun _ : String => Value)) : Heap :=
  src.foldl (fun acc kv => acc.store dst kv.1 kv.2) h

/-- The `html/template` object as built by `New`, `Delims` and `Funcs`. -/
structure Template where
  name : String
  leftDelim : String
  rightDelim : String
  funcs : GoMap
  deriving DecidableEq

/-- Go `template.New(name)`. -/
def Template.New (name : String) : Template := ⟨name, "", "", ∅⟩

/-- Go `t.Delims(left, right)`. -/
def Template.Delims (t : Template) (left right : String) : Template :=
  { t with leftDelim := left, rightDelim := right }

/-- Go `t.Funcs(funcMap)`: adds the entries of `funcMap` to the function table
of the template, overwriting by name. -/
def Template.Funcs (t : Template) (funcMap : GoMap) : Template :=
  { t with funcs := funcMap.entries.foldl (fun acc kv => acc.insert kv.1 kv.2) t.funcs }

/-- What an operation did, in order. -/
inductive Event
  | lock
  | unlock
  | rlock
  | runlock
  | search (file : String)
  | getContents (path : String)
  | hash (content : String)
  | parse (tpl : Template) (content : String)
  | execute (tpl : Template) (content : String) (vars : Option Addr)
  | makeMap (a : Addr)
  | mapStore (a : Addr) (k : String) (v : Value)
  | delimStore (i : Nat) (s : String)
  | pathSet (path : String)
  | pathAdd (path : String)
  deriving DecidableEq

/-- The stores of a `range` loop, as events. -/
def rangeEvents (dst : Addr) (src : List (Sigma fun _ : String => Value)) : List Event :=
  src.map (fun kv => Event.mapStore dst kv.1 kv.2)

/-- Result of an operation: return value, heap afterwards, events performed. -/
structure Out (α : Type) where
  ret : α
  heap : Heap
  events : List Event

/-- The external collaborators.  `spathSet`, `spathAdd` and `spathSearch` are
`gspath.SPath.Set`, `Add` and `Search` on the search-path list; `getContents`
is `gfcache.GetContents`; `hashName` is
`gconv.String(ghash.BKDRHash64([]byte(content)))`; `parse` is
`(*template.Template).Parse` (`none` when it succeeds) and `execute` is
`Execute` into a fresh buffer, given the variables it is passed (`none` for
the nil map). -/
structure Collab where
  spathSet : List String → String → List String × Option ExtError
  spathAdd : List String → String → List String × Option ExtError
  spathSearch : List String → String → String
  getContents : String → String
  hashName : String → String
  parse : Template → String → Option ExtError
  execute : Template → String → Option GoMap → Except ExtError String

/-- The View object.  `self` is its own address (the receiver of its method
values), `paths` the state of its `*gspath.SPath`, `data` and `funcmap` the
addresses of its two maps, `delimiters` its two-element slice.  The mutex `mu`
appears as lock events. -/
structure View where
  self : Addr
  paths : List String
  data : Addr
  funcmap : Addr
  delimiters : List String

/-- Go `View.SetDelimiters`: two indexed stores into the slice, with no lock
taken.  The slice has two elements from `New` on, so both indices are in
range. -/
def View.SetDelimiters (view : View) (left right : String) (h : Heap) : Out View :=
  { ret := { view with delimiters := (view.delimiters.set 0 left).set 1 right }
    heap := h
    events := [.delimStore 0 left, .delimStore 1 right] }

/-- Go `View.BindFunc`. -/
def View.BindFunc (view : View) (name : String) (function : Value) (h : Heap) : Out Unit :=
  { ret := ()
    heap := h.store view.funcmap name function
    events := [.lock, .mapStore view.funcmap name function, .unlock] }

/-- Go `New`. -/
def New (E : Collab) (path : String) (h : Heap) : Out View :=
  let s := (E.spathSet [] path).1
  let d := h.makeMap
  let f := d.2.makeMap
  let h3 : Heap := { f.2 with objects := f.2.objects + 1 }
  let view : View :=
    { self := f.2.objects, paths := s, data := d.1, funcmap := f.1, delimiters := ["", ""] }
  let o1 := view.SetDelimiters "\x7b\x7b" "\x7d\x7d" h3
  let o2 := o1.ret.BindFunc "text" (.method view.self .funcText) o1.heap
  let o3 := o1.ret.BindFunc "html" (.method view.self .funcHtml) o2.heap
  let o4 := o1.ret.BindFunc "include" (.method view.self .funcInclude) o3.heap
  { ret := o1.ret
    heap := o4.heap
    events := [.pathSet path, .makeMap d.1, .makeMap f.1] ++ o1.events ++ o2.events
      ++ o3.events ++ o4.events }

/-- Go `View.SetPath`. -/
def View.SetPath (E : Collab) (view : View) (path : String) (h : Heap) :
    Out (View × Option Error) :=
  let r := E.spathSet view.paths path
  { ret := ({ view with paths := r.1 }, r.2.map Error.ext), heap := h, events := [.pathSet path] }

/-- Go `View.AddPath`. -/
def View.AddPath (E : Collab) (view : View) (path : String) (h : Heap) :
    Out (View × Option Error) :=
  let r := E.spathAdd view.paths path
  { ret := ({ view with paths := r.1 }, r.2.map Error.ext), heap := h, events := [.pathAdd path] }

/-- Go `View.Assigns`. -/
def View.Assigns (view : View) (data : Option Addr) (h : Heap) : Out Unit :=
  let src := (h.read data).entries
  { ret := ()
    heap := h.rangeStore view.data src
    events := [.lock] ++ rangeEvents view.data src ++ [.unlock] }

/-- Go `View.Assign`. -/
def View.Assign (view : View) (key : String) (value : Value) (h : Heap) : Out Unit :=
  { ret := ()
    heap := h.store view.data key value
    events := [.lock, .mapStore view.data key value, .unlock] }

/-- The block that builds `vars` in `View.Parse` (lines 134 to 149), which
`View.ParseContent` repeats verbatim (lines 172 to 187). -/
def View.mergeVars (view : View) (params : Option Addr) (h : Heap) : Out (Option Addr) :=
  if (h.read (some view.data)).len > 0 then
    if (h.read params).len > 0 then
      let m := h.makeMap
      let h1 := m.2.rangeStore m.1 (m.2.read params).entries
      let h2 := h1.rangeStore m.1 (h1.read (some view.data)).entries
      { ret := some m.1
        heap := h2
        events := [.makeMap m.1] ++ rangeEvents m.1 (m.2.read params).entries
          ++ rangeEvents m.1 (h1.read (some view.data)).entries }
    else
      { ret := some view.data, heap := h, events := [] }
  else
    { ret := params, heap := h, events := [] }

/-- The template object `tplobj` that `View.Parse` and `View.ParseContent`
hand to the engine's `Parse` (lines 125 to 128 and 163 to 166). -/
def View.tplobj (view : View) (name : String) (funcmap : List (Option Addr)) (h : Heap) :
    Template :=
  let t := ((Template.New name).Delims (view.delimiters.getD 0 "")
    (view.delimiters.getD 1 "")).Funcs (h.read (some view.funcmap))
  match funcmap with
  | [] => t
  | m :: _ => t.Funcs (h.read m)

/-- Go `View.Parse`. -/
def View.Parse (E : Collab) (view : View) (file : String) (params : Option Addr)
    (funcmap : List (Option Addr)) (h : Heap) : Out (Option String × Option Error) :=
  let path := E.spathSearch view.paths file
  if path = "" then
    { ret := (none, some (.errorsNew ("tpl \"" ++ file ++ "\" not found")))
      heap := h
      events := [.search file] }
  else
    let content := E.getContents path
    let tplobj := view.tplobj path funcmap h
    match E.parse tplobj content with
    | some err =>
      { ret := (none, some (.ext err))
        heap := h
        events := [.search file, .getContents path, .rlock, .parse tplobj content, .runlock] }
    | none =>
      let m := view.mergeVars params h
      let pre : List Event :=
        [.search file, .getContents path, .rlock, .parse tplobj content] ++ m.events
          ++ [.execute tplobj content m.ret]
      match E.execute tplobj content (m.ret.map fun a => m.heap.read (some a)) with
      | .error err => { ret := (none, some (.ext err)), heap := m.heap, events := pre ++ [.runlock] }
      | .ok bytes => { ret := (some bytes, none), heap := m.heap, events := pre ++ [.runlock] }

/-- Go `View.ParseContent`. -/
def View.ParseContent (E : Collab) (view : View) (content : String) (params : Option Addr)
    (funcmap : List (Option Addr)) (h : Heap) : Out (Option String × Option Error) :=
  let name := E.hashName content
  let tplobj := view.tplobj name funcmap h
  match E.parse tplobj content with
  | some err =>
    { ret := (none, some (.ext err))
      heap := h
      events := [.rlock, .hash content, .parse tplobj content, .runlock] }
  | none =>
    let m := view.mergeVars params h
    let pre : List Event :=
      [.rlock, .hash content, .parse tplobj content] ++ m.events
        ++ [.execute tplobj content m.ret]
    match E.execute tplobj content (m.ret.map fun a => m.heap.read (some a)) with
    | .error err => { ret := (none, some (.ext err)), heap := m.heap, events := pre ++ [.runlock] }
    | .ok bytes => { ret := (some bytes, none), heap := m.heap, events := pre ++ [.runlock] }

/-- Go `View.funcInclude`. -/
def View.funcInclude (E : Collab) (view : View) (file : String) (data : List (Option Addr))
    (h : Heap) : Out String :=
  let m : Option Addr :=
    match data with
    | [] => none
    | d :: _ => d
  let r := view.Parse E file m [] h
  match r.ret.2 with
  | some err => { ret := err.Error, heap := r.heap, events := r.events }
  | none => { ret := r.ret.1.getD "", heap := r.heap, events := r.events }

/-! ## Observations on event lists, operation sequences, fixtures -/

/-- The variable references handed to the engine's `Execute`, in order. -/
def executedVars : List Event → List (Option Addr)
  | [] => []
  | .execute _ _ vars :: rest => vars :: executedVars rest
  | _ :: rest => executedVars rest

/-- The template objects handed to the engine's `Parse`, in order. -/
def parsedTemplates : List Event → List Template
  | [] => []
  | .parse tpl _ :: rest => tpl :: parsedTemplates rest
  | _ :: rest => parsedTemplates rest

/-- Whether an event is a call to a collaborator that reads content, compiles
or executes. -/
def Event.isEngineWork : Event → Bool
  | .getContents _ => true
  | .parse _ _ => true
  | .execute _ _ _ => true
  | _ => false

/-- Whether every store to `view.data`, `view.funcmap` or `view.delimiters` in
the event list happens while the exclusive lock is held; `held` says whether
the lock is held when the list starts. -/
def writesUnderLock (view : View) (held : Bool) : List Event → Bool
  | [] => true
  | .lock :: rest => writesUnderLock view true rest
  | .unlock :: rest => writesUnderLock view false rest
  | .mapStore a _ _ :: rest =>
    (if a = view.data ∨ a = view.funcmap then held else true) && writesUnderLock view held rest
  | .delimStore _ _ :: rest => held && writesUnderLock view held rest
  | _ :: rest => writesUnderLock view held rest

/-- The public operations on a View, with their arguments. -/
inductive Op
  | setDelimiters (left right : String)
  | assign (key : String) (value : Value)
  | assigns (data : Option Addr)
  | bindFunc (name : String) (function : Value)
  | setPath (path : String)
  | addPath (path : String)
  | parse (file : String) (params : Option Addr) (funcmap : List (Option Addr))
  | parseContent (content : String) (params : Option Addr) (funcmap : List (Option Addr))

/-- One public operation applied to a View and a heap. -/
def step (E : Collab) (st : View × Heap) : Op → View × Heap
  | .setDelimiters left right =>
    let o := st.1.SetDelimiters left right st.2
    (o.ret, o.heap)
  | .assign key value => (st.1, (st.1.Assign key value st.2).heap)
  | .assigns data => (st.1, (st.1.Assigns data st.2).heap)
  | .bindFunc name function => (st.1, (st.1.BindFunc name function st.2).heap)
  | .setPath path =>
    let o := st.1.SetPath E path st.2
    (o.ret.1, o.heap)
  | .addPath path =>
    let o := st.1.AddPath E path st.2
    (o.ret.1, o.heap)
  | .parse file params funcmap => (st.1, (st.1.Parse E file params funcmap st.2).heap)
  | .parseContent content params funcmap =>
    (st.1, (st.1.ParseContent E content params funcmap st.2).heap)

/-- A sequence of public operations applied in order. -/
def run (E : Collab) (st : View × Heap) (ops : List Op) : View × Heap :=
  ops.foldl (step E) st

/-- Whether every `SetDelimiters` call of the sequence gets two non-empty strings. -/
def delimArgsNonEmpty : List Op → Bool
  | [] => true
  | .setDelimiters left right :: rest => left != "" && right != "" && delimArgsNonEmpty rest
  | _ :: rest => delimArgsNonEmpty rest

/-- The heap before anything is allocated. -/
def emptyHeap : Heap := { maps := fun _ => ∅, next := 0, objects := 0 }

/-- A collaborator set for concrete runs: every file except `missing.tpl` is
found under the first search path, every template compiles, and executing
prints the string bound to the variable `a` (nothing when there is none). -/
def demoCollab : Collab where
  spathSet := fun _ path => ([path], none)
  spathAdd := fun paths path => (paths ++ [path], none)
  spathSearch := fun paths file =>
    if file = "missing.tpl" then "" else paths.headD "" ++ "/" ++ file
  getContents := fun _ => "a"
  hashName := fun content => content
  parse := fun _ _ => none
  execute := fun _ _ vars =>
    match vars with
    | none => .ok ""
    | some m =>
      match m.lookup "a" with
      | some (.str s) => .ok s
      | _ => .ok ""

/-- A View made by `New` under `/v`. -/
def demoView : View := (New demoCollab "/v" emptyHeap).ret

/-- The heap after `New` and after `Assign("a", "global")` on `demoView`. -/
def demoHeapBound : Heap :=
  (demoView.Assign "a" (.str "global") (New demoCollab "/v" emptyHeap).heap).heap

/-- The heap `demoHeapBound` after the caller built the map `{a: "caller"}`;
the map is at address 2. -/
def demoHeapCaller : Heap :=
  (demoHeapBound.makeMap.2).store 2 "a" (.str "caller")

/-- The heap `demoHeapBound` after the caller built the map `{b: "caller"}`,
which shares no key with the bound variables; the map is at address 2. -/
def demoHeapDisjoint : Heap :=
  (demoHeapBound.makeMap.2).store 2 "b" (.str "caller")

/-- The heap `demoHeapCaller` after the caller built the function map
`{text: func 7, upper: func 8}` at address 3. -/
def demoHeapFuncs : Heap :=
  ((demoHeapCaller.makeMap.2).store 3 "text" (.func 7)).store 3 "upper" (.func 8)

/-! ## Lemmas on maps and the heap -/

/-- Inserting a list of entries with distinct keys: a key of the list gets the
value the list gives it, any other key keeps the value it had. -/
theorem lookup_foldl_insert (k : String) :
    ∀ (l : List (Sigma fun _ : String => Value)) (acc : GoMap), l.NodupKeys →
      (l.foldl (fun m kv => m.insert kv.1 kv.2) acc).lookup k
        = if k ∈ l.keys then List.dlookup k l else acc.lookup k := by
  intro l
  induction l with
  | nil => intro acc _; simp
  | cons hd tl ih =>
    intro acc hnd
    obtain ⟨a, b⟩ := hd
    rw [List.nodupKeys_cons] at hnd
    obtain ⟨hnot, hnd⟩ := hnd
    simp only [List.foldl_cons]
    rw [ih _ hnd]
    by_cases hk : k = a
    · subst hk
      simp [hnot, List.dlookup_cons_eq, AList.lookup_insert]
    · have hk2 : k ≠ (⟨a, b⟩ : Sigma fun _ : String => Value).1 := hk
      simp [List.keys_cons, hk, List.dlookup_cons_ne _ _ hk2, AList.lookup_insert_ne hk]

theorem store_next (h : Heap) (a : Addr) (k : String) (v : Value) :
    (h.store a k v).next = h.next := by
  unfold Heap.store; split <;> rfl

theorem store_objects (h : Heap) (a : Addr) (k : String) (v : Value) :
    (h.store a k v).objects = h.objects := by
  unfold Heap.store; split <;> rfl

theorem store_maps_ne (h : Heap) (a b : Addr) (k : String) (v : Value) (hab : b ≠ a) :
    (h.store a k v).maps b = h.maps b := by
  unfold Heap.store; split
  · simp [Function.update_noteq hab]
  · rfl

theorem store_maps_same (h : Heap) (a : Addr) (k : String) (v : Value) (ha : a < h.next) :
    (h.store a k v).maps a = (h.maps a).insert k v := by
  unfold Heap.store; simp [ha]

theorem rangeStore_next (dst : Addr) :
    ∀ (src : List (Sigma fun _ : String => Value)) (h : Heap),
      (h.rangeStore dst src).next = h.next := by
  intro src
  induction src with
  | nil => intro h; rfl
  | cons hd tl ih =>
    intro h
    simp only [Heap.rangeStore, List.foldl_cons] at ih ⊢
    rw [ih, store_next]

theorem rangeStore_objects (dst : Addr) :
    ∀ (src : List (Sigma fun _ : String => Value)) (h : Heap),
      (h.rangeStore dst src).objects = h.objects := by
  intro src
  induction src with
  | nil => intro h; rfl
  | cons hd tl ih =>
    intro h
    simp only [Heap.rangeStore, List.foldl_cons] at ih ⊢
    rw [ih, store_objects]

theorem rangeStore_maps_ne (dst b : Addr) (hb : b ≠ dst) :
    ∀ (src : List (Sigma fun _ : String => Value)) (h : Heap),
      (h.rangeStore dst src).maps b = h.maps b := by
  intro src
  induction src with
  | nil => intro h; rfl
  | cons hd tl ih =>
    intro h
    simp only [Heap.rangeStore, List.foldl_cons] at ih ⊢
    rw [ih, store_maps_ne _ _ _ _ _ hb]

theorem rangeStore_maps_same (dst : Addr) :
    ∀ (src : List (Sigma fun _ : String => Value)) (h : Heap), dst < h.next →
      (h.rangeStore dst src).maps dst
        = src.foldl (fun m kv => m.insert kv.1 kv.2) (h.maps dst) := by
  intro src
  induction src with
  | nil => intro h _; rfl
  | cons hd tl ih =>
    intro h hd2
    simp only [Heap.rangeStore, List.foldl_cons] at ih ⊢
    rw [ih _ (by rw [store_next]; exact hd2), store_maps_same _ _ _ _ hd2]

theorem rangeStore_of_not_allocated (dst : Addr) :
    ∀ (src : List (Sigma fun _ : String => Value)) (h : Heap), ¬ dst < h.next →
      h.rangeStore dst src = h := by
  intro src
  induction src with
  | nil => intro h _; rfl
  | cons hd tl ih =>
    intro h hd2
    simp only [Heap.rangeStore, List.foldl_cons] at ih ⊢
    have : h.store dst hd.1 hd.2 = h := by unfold Heap.store; simp [hd2]
    rw [this, ih _ hd2]

theorem read_of_len_pos (h : Heap) (r : Option Addr) (hpos : 0 < (h.read r).len) :
    ∃ a, r = some a ∧ a < h.next ∧ h.read r = h.maps a := by
  cases r with
  | none => simp [Heap.read, GoMap.len] at hpos
  | some a =>
    by_cases ha : a < h.next
    · exact ⟨a, rfl, ha, by simp [Heap.read, ha]⟩
    · simp [Heap.read, ha, GoMap.len] at hpos

theorem makeMap_read_old (h : Heap) (a : Addr) (ha : a < h.next) :
    h.makeMap.2.read (some a) = h.maps a := by
  have hne : a ≠ h.next := Nat.ne_of_lt ha
  simp [Heap.read, Heap.makeMap, Function.update_noteq hne, Nat.lt_succ_of_lt ha]

/-- The heap and the result of the merge block when both maps have entries: the
result is the fresh address `h.next`, no older map object is touched, and the
fresh map holds the entries of `params` stored first and the entries of
`view.data` stored after them. -/
theorem mergeVars_both (view : View) (params : Option Addr) (h : Heap)
    (hV : 0 < (h.read (some view.data)).len) (hP : 0 < (h.read params).len) :
    (view.mergeVars params h).ret = some h.next
      ∧ (view.mergeVars params h).heap.next = h.next + 1
      ∧ (view.mergeVars params h).heap.objects = h.objects
      ∧ (∀ a, a ≠ h.next → (view.mergeVars params h).heap.maps a = h.maps a)
      ∧ (view.mergeVars params h).heap.maps h.next
          = (h.read (some view.data)).entries.foldl (fun m kv => m.insert kv.1 kv.2)
              ((h.read params).entries.foldl (fun m kv => m.insert kv.1 kv.2) ∅) := by
  obtain ⟨d, hd, hdlt, hdr⟩ := read_of_len_pos h _ hV
  obtain ⟨p, hp, hplt, hpr⟩ := read_of_len_pos h _ hP
  cases hd
  subst hp
  have hfresh : h.makeMap.1 = h.next := rfl
  have hnext1 : h.makeMap.2.next = h.next + 1 := rfl
  have hrp : h.makeMap.2.read (some p) = h.maps p := makeMap_read_old h p hplt
  have hnextA : (h.makeMap.2.rangeStore h.next (h.maps p).entries).next = h.next + 1 := by
    rw [rangeStore_next]; rfl
  have hrd : (h.makeMap.2.rangeStore h.next (h.maps p).entries).read (some view.data)
      = h.maps view.data := by
    have hne : view.data ≠ h.next := Nat.ne_of_lt hdlt
    simp only [Heap.read, hnextA, Nat.lt_succ_of_lt hdlt, if_true]
    rw [rangeStore_maps_ne _ _ hne]
    simp [Heap.makeMap, Function.update_noteq hne]
  have hlt : h.next < h.makeMap.2.next := by rw [hnext1]; exact Nat.lt_succ_self _
  have hunf : (view.mergeVars (some p) h).heap
      = (h.makeMap.2.rangeStore h.next (h.maps p).entries).rangeStore h.next
          (h.maps view.data).entries
      ∧ (view.mergeVars (some p) h).ret = some h.next := by
    unfold View.mergeVars
    rw [if_pos (show (h.read (some view.data)).len > 0 from hV),
      if_pos (show (h.read (some p)).len > 0 from hP)]
    simp [hfresh, hrp, hrd]
  obtain ⟨hheap, hret⟩ := hunf
  refine ⟨hret, ?_, ?_, ?_, ?_⟩
  · rw [hheap, rangeStore_next, hnextA]
  · rw [hheap, rangeStore_objects, rangeStore_objects]; rfl
  · intro a ha
    rw [hheap, rangeStore_maps_ne _ _ ha, rangeStore_maps_ne _ _ ha]
    simp [Heap.makeMap, Function.update_noteq ha]
  · rw [hheap, rangeStore_maps_same _ _ _ (by rw [hnextA]; exact Nat.lt_succ_self _),
      rangeStore_maps_same _ _ _ hlt, hdr, hpr]
    simp [Heap.makeMap]

theorem len_eq_zero (m : GoMap) (h0 : ¬ 0 < m.len) : m = ∅ := by
  have hnil : m.entries = [] := by
    have : m.entries.length = 0 := Nat.eq_zero_of_not_pos h0
    exact List.length_eq_zero.mp this
  exact AList.ext hnil

/-- What the variables handed to `Execute` hold, in every case of the merge
block: a key of `view.data` has the value `view.data` gives it, any other key
has the value `params` gives it. -/
theorem mergeVars_lookup (view : View) (params : Option Addr) (h : Heap) (k : String) :
    ((view.mergeVars params h).heap.read (view.mergeVars params h).ret).lookup k
      = if k ∈ h.read (some view.data) then (h.read (some view.data)).lookup k
        else (h.read params).lookup k := by
  by_cases hV : 0 < (h.read (some view.data)).len
  · by_cases hP : 0 < (h.read params).len
    · obtain ⟨hret, hnext, _, _, hmap⟩ := mergeVars_both view params h hV hP
      rw [hret]
      simp only [Heap.read, hnext, Nat.lt_succ_self, if_true]
      have hrd : (if view.data < h.next then h.maps view.data else ∅)
          = h.read (some view.data) := rfl
      rw [hrd, hmap, lookup_foldl_insert _ _ _ (h.read (some view.data)).nodupKeys,
        lookup_foldl_insert _ _ _ (h.read params).nodupKeys]
      by_cases hk : k ∈ h.read (some view.data)
      · have hk2 : k ∈ (h.read (some view.data)).entries.keys := hk
        simp only [hk, hk2, if_true]; rfl
      · have hk2 : k ∉ (h.read (some view.data)).entries.keys := hk
        simp only [hk, hk2, if_false]
        by_cases hkp : k ∈ (h.read params).entries.keys
        · simp only [hkp, if_true]; rfl
        · simp only [hkp, if_false]
          have : k ∉ h.read params := hkp
          rw [AList.lookup_empty, eq_comm, AList.lookup_eq_none]
          exact this
    · have hPe := len_eq_zero _ hP
      have hunf : view.mergeVars params h = { ret := some view.data, heap := h, events := [] } := by
        unfold View.mergeVars
        rw [if_pos (show (h.read (some view.data)).len > 0 from hV),
          if_neg (show ¬ (h.read params).len > 0 from hP)]
      rw [hunf, hPe]
      by_cases hk : k ∈ h.read (some view.data)
      · simp [hk]
      · simp only [hk, if_false, AList.lookup_empty]
        exact AList.lookup_eq_none.mpr hk
  · have hVe := len_eq_zero _ hV
    have hunf : view.mergeVars params h = { ret := params, heap := h, events := [] } := by
      unfold View.mergeVars
      rw [if_neg (show ¬ (h.read (some view.data)).len > 0 from hV)]
    rw [hunf, hVe]
    simp

/-- The merge block leaves every map object that existed before it as it was,
and only ever allocates. -/
theorem mergeVars_frame (view : View) (params : Option Addr) (h : Heap) :
    h.next ≤ (view.mergeVars params h).heap.next
      ∧ (view.mergeVars params h).heap.objects = h.objects
      ∧ ∀ a, a < h.next → (view.mergeVars params h).heap.maps a = h.maps a := by
  by_cases hV : 0 < (h.read (some view.data)).len
  · by_cases hP : 0 < (h.read params).len
    · obtain ⟨_, hnext, hobj, hold, _⟩ := mergeVars_both view params h hV hP
      exact ⟨by rw [hnext]; exact Nat.le_succ _, hobj, fun a ha => hold a (Nat.ne_of_lt ha)⟩
    · have hunf : view.mergeVars params h = { ret := some view.data, heap := h, events := [] } := by
        unfold View.mergeVars
        rw [if_pos (show (h.read (some view.data)).len > 0 from hV),
          if_neg (show ¬ (h.read params).len > 0 from hP)]
      rw [hunf]; exact ⟨Nat.le_refl _, rfl, fun _ _ => rfl⟩
  · have hunf : view.mergeVars params h = { ret := params, heap := h, events := [] } := by
      unfold View.mergeVars
      rw [if_neg (show ¬ (h.read (some view.data)).len > 0 from hV)]
    rw [hunf]; exact ⟨Nat.le_refl _, rfl, fun _ _ => rfl⟩

theorem read_of_frame (h g : Heap) (hle : h.next ≤ g.next)
    (hold : ∀ a, a < h.next → g.maps a = h.maps a) (r : Option Addr)
    (hr : ∀ a, r = some a → a < h.next) : g.read r = h.read r := by
  cases r with
  | none => rfl
  | some a =>
    have ha := hr a rfl
    simp [Heap.read, ha, Nat.lt_of_lt_of_le ha hle, hold a ha]

theorem executedVars_append (xs ys : List Event) :
    executedVars (xs ++ ys) = executedVars xs ++ executedVars ys := by
  induction xs with
  | nil => rfl
  | cons x xs ih => cases x <;> simp [executedVars, ih]

theorem parsedTemplates_append (xs ys : List Event) :
    parsedTemplates (xs ++ ys) = parsedTemplates xs ++ parsedTemplates ys := by
  induction xs with
  | nil => rfl
  | cons x xs ih => cases x <;> simp [parsedTemplates, ih]

theorem executedVars_rangeEvents (dst : Addr) (src : List (Sigma fun _ : String => Value)) :
    executedVars (rangeEvents dst src) = [] := by
  induction src with
  | nil => rfl
  | cons x xs ih => simpa [rangeEvents, executedVars] using ih

theorem parsedTemplates_rangeEvents (dst : Addr) (src : List (Sigma fun _ : String => Value)) :
    parsedTemplates (rangeEvents dst src) = [] := by
  induction src with
  | nil => rfl
  | cons x xs ih => simpa [rangeEvents, parsedTemplates] using ih

theorem mergeVars_executedVars (view : View) (params : Option Addr) (h : Heap) :
    executedVars (view.mergeVars params h).events = [] := by
  unfold View.mergeVars
  split
  · split
    · simp [executedVars_append, executedVars_rangeEvents, executedVars]
    · rfl
  · rfl

theorem mergeVars_parsedTemplates (view : View) (params : Option Addr) (h : Heap) :
    parsedTemplates (view.mergeVars params h).events = [] := by
  unfold View.mergeVars
  split
  · split
    · simp [parsedTemplates_append, parsedTemplates_rangeEvents, parsedTemplates]
    · rfl
  · rfl

/-! ## The three ways through `Parse`, the two ways through `ParseContent` -/

theorem Parse_notFound (E : Collab) (view : View) (file : String) (params : Option Addr)
    (funcmap : List (Option Addr)) (h : Heap) (hpath : E.spathSearch view.paths file = "") :
    view.Parse E file params funcmap h
      = { ret := (none, some (.errorsNew ("tpl \"" ++ file ++ "\" not found")))
          heap := h
          events := [.search file] } := by
  unfold View.Parse
  simp [hpath]

theorem Parse_parseError (E : Collab) (view : View) (file : String) (params : Option Addr)
    (funcmap : List (Option Addr)) (h : Heap) (e : ExtError)
    (hpath : E.spathSearch view.paths file ≠ "")
    (hparse : E.parse (view.tplobj (E.spathSearch view.paths file) funcmap h)
      (E.getContents (E.spathSearch view.paths file)) = some e) :
    view.Parse E file params funcmap h
      = { ret := (none, some (.ext e))
          heap := h
          events := [.search file, .getContents (E.spathSearch view.paths file), .rlock,
            .parse (view.tplobj (E.spathSearch view.paths file) funcmap h)
              (E.getContents (E.spathSearch view.paths file)), .runlock] } := by
  unfold View.Parse
  simp [hpath, hparse]

theorem Parse_executed (E : Collab) (view : View) (file : String) (params : Option Addr)
    (funcmap : List (Option Addr)) (h : Heap)
    (hpath : E.spathSearch view.paths file ≠ "")
    (hparse : E.parse (view.tplobj (E.spathSearch view.paths file) funcmap h)
      (E.getContents (E.spathSearch view.paths file)) = none) :
    (view.Parse E file params funcmap h).heap = (view.mergeVars params h).heap
      ∧ (view.Parse E file params funcmap h).events
          = [.search file, .getContents (E.spathSearch view.paths file), .rlock,
              .parse (view.tplobj (E.spathSearch view.paths file) funcmap h)
                (E.getContents (E.spathSearch view.paths file))]
            ++ (view.mergeVars params h).events
            ++ [.execute (view.tplobj (E.spathSearch view.paths file) funcmap h)
                (E.getContents (E.spathSearch view.paths file)) (view.mergeVars params h).ret]
            ++ [.runlock]
      ∧ (view.Parse E file params funcmap h).ret
          = match E.execute (view.tplobj (E.spathSearch view.paths file) funcmap h)
              (E.getContents (E.spathSearch view.paths file))
              ((view.mergeVars params h).ret.map fun a =>
                (view.mergeVars params h).heap.read (some a)) with
            | .error err => (none, some (.ext err))
            | .ok bytes => (some bytes, none) := by
  unfold View.Parse
  simp only [hpath, hparse, if_false]
  split <;> exact ⟨rfl, rfl, rfl⟩

theorem ParseContent_parseError (E : Collab) (view : View) (content : String)
    (params : Option Addr) (funcmap : List (Option Addr)) (h : Heap) (e : ExtError)
    (hparse : E.parse (view.tplobj (E.hashName content) funcmap h) content = some e) :
    view.ParseContent E content params funcmap h
      = { ret := (none, some (.ext e))
          heap := h
          events := [.rlock, .hash content,
            .parse (view.tplobj (E.hashName content) funcmap h) content, .runlock] } := by
  unfold View.ParseContent
  simp [hparse]

theorem ParseContent_executed (E : Collab) (view : View) (content : String)
    (params : Option Addr) (funcmap : List (Option Addr)) (h : Heap)
    (hparse : E.parse (view.tplobj (E.hashName content) funcmap h) content = none) :
    (view.ParseContent E content params funcmap h).heap = (view.mergeVars params h).heap
      ∧ (view.ParseContent E content params funcmap h).events
          = [.rlock, .hash content, .parse (view.tplobj (E.hashName content) funcmap h) content]
            ++ (view.mergeVars params h).events
            ++ [.execute (view.tplobj (E.hashName content) funcmap h) content
                (view.mergeVars params h).ret]
            ++ [.runlock]
      ∧ (view.ParseContent E content params funcmap h).ret
          = match E.execute (view.tplobj (E.hashName content) funcmap h) content
              ((view.mergeVars params h).ret.map fun a =>
                (view.mergeVars params h).heap.read (some a)) with
            | .error err => (none, some (.ext err))
            | .ok bytes => (some bytes, none) := by
  unfold View.ParseContent
  simp only [hparse]
  split <;> exact ⟨rfl, rfl, rfl⟩

/-- The references `Parse` hands to `Execute`: none when the file is not found
or does not compile, otherwise exactly the result of the merge block, and then
the heap `Parse` leaves is the heap the merge block leaves. -/
theorem Parse_executedVars (E : Collab) (view : View) (file : String) (params : Option Addr)
    (funcmap : List (Option Addr)) (h : Heap) :
    (executedVars (view.Parse E file params funcmap h).events = []
        ∧ (view.Parse E file params funcmap h).heap = h)
      ∨ (executedVars (view.Parse E file params funcmap h).events
            = [(view.mergeVars params h).ret]
          ∧ (view.Parse E file params funcmap h).heap = (view.mergeVars params h).heap) := by
  by_cases hpath : E.spathSearch view.paths file = ""
  · left; rw [Parse_notFound E view file params funcmap h hpath]; exact ⟨rfl, rfl⟩
  · cases hparse : E.parse (view.tplobj (E.spathSearch view.paths file) funcmap h)
        (E.getContents (E.spathSearch view.paths file)) with
    | some e =>
      left; rw [Parse_parseError E view file params funcmap h e hpath hparse]; exact ⟨rfl, rfl⟩
    | none =>
      right
      obtain ⟨hh, he, _⟩ := Parse_executed E view file params funcmap h hpath hparse
      rw [he, hh]
      simp [executedVars_append, mergeVars_executedVars, executedVars]

theorem ParseContent_executedVars (E : Collab) (view : View) (content : String)
    (params : Option Addr) (funcmap : List (Option Addr)) (h : Heap) :
    (executedVars (view.ParseContent E content params funcmap h).events = []
        ∧ (view.ParseContent E content params funcmap h).heap = h)
      ∨ (executedVars (view.ParseContent E content params funcmap h).events
            = [(view.mergeVars params h).ret]
          ∧ (view.ParseContent E content params funcmap h).heap
              = (view.mergeVars params h).heap) := by
  cases hparse : E.parse (view.tplobj (E.hashName content) funcmap h) content with
  | some e =>
    left; rw [ParseContent_parseError E view content params funcmap h e hparse]; exact ⟨rfl, rfl⟩
  | none =>
    right
    obtain ⟨hh, he, _⟩ := ParseContent_executed E view content params funcmap h hparse
    rw [he, hh]
    simp [executedVars_append, mergeVars_executedVars, executedVars]

/-! ## More on the merge block -/

theorem mergeVars_noop (view : View) (params : Option Addr) (h : Heap)
    (hno : ¬ (0 < (h.read (some view.data)).len ∧ 0 < (h.read params).len)) :
    (view.mergeVars params h).heap = h
      ∧ (view.mergeVars params h).ret
          = if 0 < (h.read (some view.data)).len then some view.data else params := by
  by_cases hV : 0 < (h.read (some view.data)).len
  · have hP : ¬ 0 < (h.read params).len := fun hP => hno ⟨hV, hP⟩
    have hunf : view.mergeVars params h = { ret := some view.data, heap := h, events := [] } := by
      unfold View.mergeVars
      rw [if_pos (show (h.read (some view.data)).len > 0 from hV),
        if_neg (show ¬ (h.read params).len > 0 from hP)]
    rw [hunf]; simp [hV]
  · have hunf : view.mergeVars params h = { ret := params, heap := h, events := [] } := by
      unfold View.mergeVars
      rw [if_neg (show ¬ (h.read (some view.data)).len > 0 from hV)]
    rw [hunf]; simp [hV]

/-- After the merge block the maps `params` and `view.data` read as before. -/
theorem mergeVars_read_sources (view : View) (params : Option Addr) (h : Heap) :
    (view.mergeVars params h).heap.read params = h.read params
      ∧ (view.mergeVars params h).heap.read (some view.data) = h.read (some view.data) := by
  by_cases hb : 0 < (h.read (some view.data)).len ∧ 0 < (h.read params).len
  · obtain ⟨hle, _, hold⟩ := mergeVars_frame view params h
    obtain ⟨d, hd, hdlt, _⟩ := read_of_len_pos h _ hb.1
    obtain ⟨p, hp, hplt, _⟩ := read_of_len_pos h _ hb.2
    cases hd
    refine ⟨read_of_frame h _ hle hold params ?_, read_of_frame h _ hle hold _ ?_⟩
    · intro a ha; rw [hp] at ha; cases ha; exact hplt
    · intro a ha; cases ha; exact hdlt
  · rw [(mergeVars_noop view params h hb).1]; exact ⟨rfl, rfl⟩

theorem store_read_ne (h : Heap) (a b : Addr) (k : String) (v : Value) (hab : b ≠ a) :
    (h.store a k v).read (some b) = h.read (some b) := by
  simp [Heap.read, store_next, store_maps_ne h a b k v hab]

theorem store_read_ref_ne (h : Heap) (a : Addr) (r : Option Addr) (k : String) (v : Value)
    (hr : r ≠ some a) : (h.store a k v).read r = h.read r := by
  cases r with
  | none => rfl
  | some b => exact store_read_ne h a b k v (fun hb => hr (by rw [hb]))

theorem mem_iff_lookup_isSome (m : GoMap) (k : String) : k ∈ m ↔ (m.lookup k).isSome = true :=
  AList.lookup_isSome.symm

/-- Key set of the merged variables: the keys of `view.data` and of `params`. -/
theorem mergeVars_mem (view : View) (params : Option Addr) (h : Heap) (k : String) :
    k ∈ (view.mergeVars params h).heap.read (view.mergeVars params h).ret
      ↔ k ∈ h.read (some view.data) ∨ k ∈ h.read params := by
  rw [mem_iff_lookup_isSome, mergeVars_lookup]
  by_cases hk : k ∈ h.read (some view.data)
  · simp only [hk, if_true, true_or, iff_true]
    exact (mem_iff_lookup_isSome _ _).mp hk
  · simp only [hk, if_false, false_or]
    exact (mem_iff_lookup_isSome _ _).symm

/-- With no entries in `view.data` the merged variables are `params` itself, and
with no entries in `params` they read as `view.data`. -/
theorem mergeVars_one_side_empty (view : View) (params : Option Addr) (h : Heap) :
    ((h.read (some view.data)).len = 0 →
        (view.mergeVars params h).ret = params
          ∧ (view.mergeVars params h).heap.read (view.mergeVars params h).ret = h.read params)
      ∧ ((h.read params).len = 0 →
        (view.mergeVars params h).heap.read (view.mergeVars params h).ret
          = h.read (some view.data)) := by
  constructor
  · intro h0
    have hno : ¬ (0 < (h.read (some view.data)).len ∧ 0 < (h.read params).len) := by
      intro hb; rw [h0] at hb; exact Nat.lt_irrefl _ hb.1
    obtain ⟨hh, hr⟩ := mergeVars_noop view params h hno
    have hV : ¬ 0 < (h.read (some view.data)).len := by rw [h0]; exact Nat.lt_irrefl _
    rw [hh, hr, if_neg hV]; exact ⟨rfl, rfl⟩
  · intro h0
    have hno : ¬ (0 < (h.read (some view.data)).len ∧ 0 < (h.read params).len) := by
      intro hb; rw [h0] at hb; exact Nat.lt_irrefl _ hb.2
    obtain ⟨hh, hr⟩ := mergeVars_noop view params h hno
    rw [hh, hr]
    by_cases hV : 0 < (h.read (some view.data)).len
    · rw [if_pos hV]
    · rw [if_neg hV, len_eq_zero _ hV]
      exact len_eq_zero _ (by rw [h0]; exact Nat.lt_irrefl _)

theorem Parse_executedVars_of_compiled (E : Collab) (view : View) (file : String)
    (params : Option Addr) (funcmap : List (Option Addr)) (h : Heap)
    (hpath : E.spathSearch view.paths file ≠ "")
    (hparse : E.parse (view.tplobj (E.spathSearch view.paths file) funcmap h)
      (E.getContents (E.spathSearch view.paths file)) = none) :
    executedVars (view.Parse E file params funcmap h).events = [(view.mergeVars params h).ret] := by
  obtain ⟨_, he, _⟩ := Parse_executed E view file params funcmap h hpath hparse
  rw [he]
  simp [executedVars_append, mergeVars_executedVars, executedVars]

theorem ParseContent_executedVars_of_compiled (E : Collab) (view : View) (content : String)
    (params : Option Addr) (funcmap : List (Option Addr)) (h : Heap)
    (hparse : E.parse (view.tplobj (E.hashName content) funcmap h) content = none) :
    executedVars (view.ParseContent E content params funcmap h).events
      = [(view.mergeVars params h).ret] := by
  obtain ⟨_, he, _⟩ := ParseContent_executed E view content params funcmap h hparse
  rw [he]
  simp [executedVars_append, mergeVars_executedVars, executedVars]

/-- A property of the merged variables holds of every reference handed to
`Execute` by an operation that either executes nothing or executes exactly the
result of the merge block on the heap the merge block leaves. -/
theorem forall_executed_of_merge {α : Type} (view : View) (params : Option Addr) (h : Heap)
    (o : Out α) (P : Heap → Option Addr → Prop)
    (hcase : (executedVars o.events = [] ∧ o.heap = h)
      ∨ (executedVars o.events = [(view.mergeVars params h).ret]
          ∧ o.heap = (view.mergeVars params h).heap))
    (hP : P (view.mergeVars params h).heap (view.mergeVars params h).ret) :
    ∀ M ∈ executedVars o.events, P o.heap M := by
  intro M hM
  rcases hcase with ⟨he, _⟩ | ⟨he, hh⟩
  · rw [he] at hM; cases hM
  · rw [he] at hM
    rw [List.mem_singleton] at hM
    rw [hM, hh]; exact hP

/-! ## C1: which value a key bound on both sides gets -/

/-- C1, counterexample.  On the View `demoView` with `a` bound globally to
`"global"` and the caller mapping `{a: "caller"}` (both non-empty, `a` in both),
`Parse` and `ParseContent` hand `Execute` the fresh map at address 3, which maps
`a` to the globally bound `"global"` and not to the caller's `"caller"`; the
rendered bytes are `"global"`. -/
theorem C1_caller_value_overridden :
    0 < (demoHeapCaller.read (some demoView.data)).len
      ∧ 0 < (demoHeapCaller.read (some 2)).len
      ∧ (demoHeapCaller.read (some demoView.data)).lookup "a" = some (.str "global")
      ∧ (demoHeapCaller.read (some 2)).lookup "a" = some (.str "caller")
      ∧ executedVars (demoView.Parse demoCollab "x.tpl" (some 2) [] demoHeapCaller).events
          = [some 3]
      ∧ ((demoView.Parse demoCollab "x.tpl" (some 2) [] demoHeapCaller).heap.read
          (some 3)).lookup "a" = some (.str "global")
      ∧ ((demoView.Parse demoCollab "x.tpl" (some 2) [] demoHeapCaller).heap.read
          (some 3)).lookup "a" ≠ (demoHeapCaller.read (some 2)).lookup "a"
      ∧ (demoView.Parse demoCollab "x.tpl" (some 2) [] demoHeapCaller).ret
          = (some "global", none)
      ∧ executedVars (demoView.ParseContent demoCollab "a" (some 2) [] demoHeapCaller).events
          = [some 3]
      ∧ ((demoView.ParseContent demoCollab "a" (some 2) [] demoHeapCaller).heap.read
          (some 3)).lookup "a" ≠ (demoHeapCaller.read (some 2)).lookup "a"
      ∧ (demoView.ParseContent demoCollab "a" (some 2) [] demoHeapCaller).ret
          = (some "global", none) := by
  decide

/-- C1, as amended.  For every View whose bound variables V are non-empty, every
non-empty caller mapping P and every key `k` present in both, every mapping that
`Parse` and `ParseContent` hand to the engine's `Execute` maps `k` to V's value
(the globally bound value overrides the caller's); and when the file is found
and the template compiles, exactly one mapping is handed over, the fresh one. -/
theorem C1_global_value_wins (E : Collab) (view : View) (file content : String)
    (params : Option Addr) (funcmap : List (Option Addr)) (h : Heap) (k : String)
    (hV : 0 < (h.read (some view.data)).len) (hP : 0 < (h.read params).len)
    (hkV : k ∈ h.read (some view.data)) (_hkP : k ∈ h.read params) :
    (∀ M ∈ executedVars (view.Parse E file params funcmap h).events,
        ((view.Parse E file params funcmap h).heap.read M).lookup k
          = (h.read (some view.data)).lookup k)
      ∧ (∀ M ∈ executedVars (view.ParseContent E content params funcmap h).events,
        ((view.ParseContent E content params funcmap h).heap.read M).lookup k
          = (h.read (some view.data)).lookup k)
      ∧ (E.spathSearch view.paths file ≠ "" →
          E.parse (view.tplobj (E.spathSearch view.paths file) funcmap h)
            (E.getContents (E.spathSearch view.paths file)) = none →
          executedVars (view.Parse E file params funcmap h).events = [some h.next])
      ∧ (E.parse (view.tplobj (E.hashName content) funcmap h) content = none →
          executedVars (view.ParseContent E content params funcmap h).events
            = [some h.next]) := by
  have hlook : ((view.mergeVars params h).heap.read (view.mergeVars params h).ret).lookup k
      = (h.read (some view.data)).lookup k := by
    rw [mergeVars_lookup, if_pos hkV]
  have hret := (mergeVars_both view params h hV hP).1
  refine ⟨?_, ?_, ?_, ?_⟩
  · exact forall_executed_of_merge view params h _
      (fun g M => (g.read M).lookup k = (h.read (some view.data)).lookup k)
      (Parse_executedVars E view file params funcmap h) hlook
  · exact forall_executed_of_merge view params h _
      (fun g M => (g.read M).lookup k = (h.read (some view.data)).lookup k)
      (ParseContent_executedVars E view content params funcmap h) hlook
  · intro hpath hparse
    rw [Parse_executedVars_of_compiled E view file params funcmap h hpath hparse, hret]
  · intro hparse
    rw [ParseContent_executedVars_of_compiled E view content params funcmap h hparse, hret]

/-- Witness for `C1_global_value_wins` on `demoView`, the caller mapping at
address 2 and the key `a`. -/
theorem C1_global_value_wins_witness :
    (∀ M ∈ executedVars (demoView.Parse demoCollab "x.tpl" (some 2) [] demoHeapCaller).events,
        ((demoView.Parse demoCollab "x.tpl" (some 2) [] demoHeapCaller).heap.read M).lookup "a"
          = (demoHeapCaller.read (some demoView.data)).lookup "a")
      ∧ executedVars (demoView.Parse demoCollab "x.tpl" (some 2) [] demoHeapCaller).events
          = [some demoHeapCaller.next] :=
  have w := C1_global_value_wins demoCollab demoView "x.tpl" "a" (some 2) [] demoHeapCaller "a"
    (by decide) (by decide) (by decide) (by decide)
  ⟨w.1, w.2.2.1 (by decide) (by decide)⟩

/-! ## C2: a render stores to no map that existed before it -/

theorem mergeVars_stores (view : View) (params : Option Addr) (h : Heap) (a : Addr)
    (k : String) (v : Value) (hmem : Event.mapStore a k v ∈ (view.mergeVars params h).events) :
    a = h.next := by
  unfold View.mergeVars at hmem
  split at hmem
  · split at hmem
    · simp only [rangeEvents, List.mem_append, List.mem_singleton, List.mem_map] at hmem
      rcases hmem with (hmem | ⟨kv, _, hkv⟩) | ⟨kv, _, hkv⟩
      · cases hmem
      · cases hkv; rfl
      · cases hkv; rfl
    · cases hmem
  · cases hmem

theorem Parse_heap_cases (E : Collab) (view : View) (file : String) (params : Option Addr)
    (funcmap : List (Option Addr)) (h : Heap) :
    (view.Parse E file params funcmap h).heap = h
      ∨ (view.Parse E file params funcmap h).heap = (view.mergeVars params h).heap := by
  rcases Parse_executedVars E view file params funcmap h with ⟨_, hh⟩ | ⟨_, hh⟩
  · exact Or.inl hh
  · exact Or.inr hh

theorem ParseContent_heap_cases (E : Collab) (view : View) (content : String)
    (params : Option Addr) (funcmap : List (Option Addr)) (h : Heap) :
    (view.ParseContent E content params funcmap h).heap = h
      ∨ (view.ParseContent E content params funcmap h).heap
          = (view.mergeVars params h).heap := by
  rcases ParseContent_executedVars E view content params funcmap h with ⟨_, hh⟩ | ⟨_, hh⟩
  · exact Or.inl hh
  · exact Or.inr hh

theorem Parse_stores (E : Collab) (view : View) (file : String) (params : Option Addr)
    (funcmap : List (Option Addr)) (h : Heap) (a : Addr) (k : String) (v : Value)
    (hmem : Event.mapStore a k v ∈ (view.Parse E file params funcmap h).events) :
    a = h.next := by
  by_cases hpath : E.spathSearch view.paths file = ""
  · rw [Parse_notFound E view file params funcmap h hpath] at hmem
    simp at hmem
  · cases hparse : E.parse (view.tplobj (E.spathSearch view.paths file) funcmap h)
        (E.getContents (E.spathSearch view.paths file)) with
    | some e =>
      rw [Parse_parseError E view file params funcmap h e hpath hparse] at hmem
      simp at hmem
    | none =>
      obtain ⟨_, he, _⟩ := Parse_executed E view file params funcmap h hpath hparse
      rw [he] at hmem
      simp only [List.mem_append, List.mem_cons, List.mem_singleton, List.not_mem_nil,
        or_false, reduceCtorEq, false_or] at hmem
      exact mergeVars_stores view params h a k v hmem

theorem ParseContent_stores (E : Collab) (view : View) (content : String)
    (params : Option Addr) (funcmap : List (Option Addr)) (h : Heap) (a : Addr) (k : String)
    (v : Value)
    (hmem : Event.mapStore a k v ∈ (view.ParseContent E content params funcmap h).events) :
    a = h.next := by
  cases hparse : E.parse (view.tplobj (E.hashName content) funcmap h) content with
  | some e =>
    rw [ParseContent_parseError E view content params funcmap h e hparse] at hmem
    simp at hmem
  | none =>
    obtain ⟨_, he, _⟩ := ParseContent_executed E view content params funcmap h hparse
    rw [he] at hmem
    simp only [List.mem_append, List.mem_cons, List.mem_singleton, List.not_mem_nil,
      or_false, reduceCtorEq, false_or] at hmem
    exact mergeVars_stores view params h a k v hmem

/-- Frame of an operation whose heap is the starting heap or the heap the merge
block leaves. -/
theorem frame_of_heap_cases (view : View) (params : Option Addr) (h g : Heap)
    (hcase : g = h ∨ g = (view.mergeVars params h).heap) :
    (∀ a, a < h.next → g.maps a = h.maps a)
      ∧ g.read params = h.read params
      ∧ g.read (some view.data) = h.read (some view.data) := by
  rcases hcase with hh | hh
  · rw [hh]; exact ⟨fun _ _ => rfl, rfl, rfl⟩
  · rw [hh]
    exact ⟨(mergeVars_frame view params h).2.2, (mergeVars_read_sources view params h).1,
      (mergeVars_read_sources view params h).2⟩

/-- The fresh map of the merge block is a third object: a store to it leaves
`params` and `view.data` as they read, and a store to either of those leaves
it as it reads. -/
theorem fresh_independent (view : View) (params : Option Addr) (h g : Heap)
    (hV : 0 < (h.read (some view.data)).len) (hP : 0 < (h.read params).len) :
    some h.next ≠ params ∧ some h.next ≠ some view.data
      ∧ ∀ (k : String) (v : Value),
          (g.store h.next k v).read params = g.read params
          ∧ (g.store h.next k v).read (some view.data) = g.read (some view.data)
          ∧ (g.store view.data k v).read (some h.next) = g.read (some h.next)
          ∧ (∀ p, params = some p → (g.store p k v).read (some h.next) = g.read (some h.next))
          ∧ (params ≠ some view.data →
              (g.store view.data k v).read params = g.read params
              ∧ ∀ p, params = some p →
                  (g.store p k v).read (some view.data) = g.read (some view.data)) := by
  obtain ⟨d, hd, hdlt, _⟩ := read_of_len_pos h _ hV
  obtain ⟨p, hp, hplt, _⟩ := read_of_len_pos h _ hP
  cases hd
  have hne1 : params ≠ some h.next := by
    rw [hp]; intro hc; cases hc; exact Nat.lt_irrefl _ hplt
  have hne2 : view.data ≠ h.next := Nat.ne_of_lt hdlt
  refine ⟨fun hc => hne1 hc.symm, fun hc => hne2 (Option.some.inj hc).symm, ?_⟩
  intro k v
  refine ⟨store_read_ref_ne g _ _ k v hne1, store_read_ne g _ _ k v hne2,
    store_read_ne g _ _ k v (Ne.symm hne2), ?_, ?_⟩
  · intro q hq
    rw [hp] at hq; cases hq
    exact store_read_ne g _ _ k v (Ne.symm (Nat.ne_of_lt hplt))
  · intro hdist
    refine ⟨store_read_ref_ne g _ _ k v hdist, ?_⟩
    intro q hq
    have hqd : view.data ≠ q := fun hc => hdist (by rw [hq, hc])
    exact store_read_ne g _ _ k v hqd

/-- C2.  For every View, caller mapping, source and engine behaviour (success or
failure), after `Parse` and after `ParseContent` every map object that existed
before the call has the entries it had, in particular `params` and `view.data`,
and every store the call made went to an address that was not allocated before
it.  When `view.data` and `params` are both non-empty, the mapping handed to
`Execute` is the freshly made object: it is neither `params` nor `view.data`,
a later store to it changes neither of them, a later store to either of them
does not change it, and, `params` and `view.data` being different objects, a
later store to one of them does not change the other. -/
theorem C2_render_does_not_mutate (E : Collab) (view : View) (file content : String)
    (params : Option Addr) (funcmap : List (Option Addr)) (h : Heap) :
    ((∀ a, a < h.next → (view.Parse E file params funcmap h).heap.maps a = h.maps a)
        ∧ (view.Parse E file params funcmap h).heap.read params = h.read params
        ∧ (view.Parse E file params funcmap h).heap.read (some view.data)
            = h.read (some view.data)
        ∧ ∀ a k v, Event.mapStore a k v ∈ (view.Parse E file params funcmap h).events →
            ¬ a < h.next)
      ∧ ((∀ a, a < h.next →
            (view.ParseContent E content params funcmap h).heap.maps a = h.maps a)
        ∧ (view.ParseContent E content params funcmap h).heap.read params = h.read params
        ∧ (view.ParseContent E content params funcmap h).heap.read (some view.data)
            = h.read (some view.data)
        ∧ ∀ a k v,
            Event.mapStore a k v ∈ (view.ParseContent E content params funcmap h).events →
            ¬ a < h.next)
      ∧ (0 < (h.read (some view.data)).len → 0 < (h.read params).len →
          (∀ M ∈ executedVars (view.Parse E file params funcmap h).events
                ++ executedVars (view.ParseContent E content params funcmap h).events,
              M = some h.next ∧ M ≠ params ∧ M ≠ some view.data)
          ∧ ∀ (g : Heap) (k : String) (v : Value),
              (g.store h.next k v).read params = g.read params
              ∧ (g.store h.next k v).read (some view.data) = g.read (some view.data)
              ∧ (g.store view.data k v).read (some h.next) = g.read (some h.next)
              ∧ (∀ p, params = some p →
                  (g.store p k v).read (some h.next) = g.read (some h.next))
              ∧ (params ≠ some view.data →
                  (g.store view.data k v).read params = g.read params
                  ∧ ∀ p, params = some p →
                      (g.store p k v).read (some view.data) = g.read (some view.data))) := by
  refine ⟨?_, ?_, ?_⟩
  · obtain ⟨h1, h2, h3⟩ := frame_of_heap_cases view params h _
      (Parse_heap_cases E view file params funcmap h)
    refine ⟨h1, h2, h3, ?_⟩
    intro a k v hmem hlt
    rw [Parse_stores E view file params funcmap h a k v hmem] at hlt
    exact Nat.lt_irrefl _ hlt
  · obtain ⟨h1, h2, h3⟩ := frame_of_heap_cases view params h _
      (ParseContent_heap_cases E view content params funcmap h)
    refine ⟨h1, h2, h3, ?_⟩
    intro a k v hmem hlt
    rw [ParseContent_stores E view content params funcmap h a k v hmem] at hlt
    exact Nat.lt_irrefl _ hlt
  · intro hV hP
    have hret := (mergeVars_both view params h hV hP).1
    constructor
    · intro M hM
      have hM2 : M = some h.next := by
        rw [List.mem_append] at hM
        rcases hM with hM | hM
        · rcases Parse_executedVars E view file params funcmap h with ⟨he, _⟩ | ⟨he, _⟩
          · rw [he] at hM; cases hM
          · rw [he, List.mem_singleton, hret] at hM; exact hM
        · rcases ParseContent_executedVars E view content params funcmap h with
            ⟨he, _⟩ | ⟨he, _⟩
          · rw [he] at hM; cases hM
          · rw [he, List.mem_singleton, hret] at hM; exact hM
      obtain ⟨hn1, hn2, _⟩ := fresh_independent view params h h hV hP
      rw [hM2]; exact ⟨rfl, hn1, hn2⟩
    · intro g k v
      exact (fresh_independent view params h g hV hP).2.2 k v

/-- Witness for `C2_render_does_not_mutate` on `demoView` with the caller mapping
at address 2: both maps are non-empty, `Parse` hands `Execute` the fresh map 3. -/
theorem C2_render_does_not_mutate_witness :
    (demoView.Parse demoCollab "x.tpl" (some 2) [] demoHeapCaller).heap.read (some 2)
        = demoHeapCaller.read (some 2)
      ∧ ∀ M ∈ executedVars (demoView.Parse demoCollab "x.tpl" (some 2) [] demoHeapCaller).events
            ++ executedVars
              (demoView.ParseContent demoCollab "a" (some 2) [] demoHeapCaller).events,
          M = some demoHeapCaller.next ∧ M ≠ some 2 ∧ M ≠ some demoView.data :=
  have w := C2_render_does_not_mutate demoCollab demoView "x.tpl" "a" (some 2) []
    demoHeapCaller
  ⟨w.1.2.1, (w.2.2 (by decide) (by decide)).1⟩

/-! ## C3: the merge of maps with no common key -/

/-- The merged variables when `view.data` and `params` share no key. -/
theorem mergeVars_disjoint (view : View) (params : Option Addr) (h : Heap)
    (hdisj : ∀ k, k ∈ h.read (some view.data) → k ∉ h.read params) :
    (∀ k, k ∈ (view.mergeVars params h).heap.read (view.mergeVars params h).ret
        ↔ k ∈ h.read (some view.data) ∨ k ∈ h.read params)
      ∧ (∀ k, k ∈ h.read (some view.data) →
          ((view.mergeVars params h).heap.read (view.mergeVars params h).ret).lookup k
            = (h.read (some view.data)).lookup k)
      ∧ (∀ k, k ∈ h.read params →
          ((view.mergeVars params h).heap.read (view.mergeVars params h).ret).lookup k
            = (h.read params).lookup k)
      ∧ ((h.read (some view.data)).len = 0 →
          (view.mergeVars params h).heap.read (view.mergeVars params h).ret = h.read params)
      ∧ ((h.read params).len = 0 →
          (view.mergeVars params h).heap.read (view.mergeVars params h).ret
            = h.read (some view.data)) := by
  refine ⟨fun k => mergeVars_mem view params h k, ?_, ?_, ?_, ?_⟩
  · intro k hk
    rw [mergeVars_lookup, if_pos hk]
  · intro k hk
    have hnot : k ∉ h.read (some view.data) := fun hV => hdisj k hV hk
    rw [mergeVars_lookup, if_neg hnot]
  · intro h0
    exact ((mergeVars_one_side_empty view params h).1 h0).2
  · exact (mergeVars_one_side_empty view params h).2

/-- C3.  For every View with bound variables V and every caller mapping P (nil
included) that share no key, every mapping M that `Parse` and `ParseContent`
hand to `Execute` has exactly the keys of V and of P, gives each key of V the
value V gives it and each key of P the value P gives it, has the entries of P
when V is empty and the entries of V when P is empty; and when the file is
found and the template compiles, exactly one mapping is handed over. -/
theorem C3_disjoint_merge_is_union (E : Collab) (view : View) (file content : String)
    (params : Option Addr) (funcmap : List (Option Addr)) (h : Heap)
    (hdisj : ∀ k, k ∈ h.read (some view.data) → k ∉ h.read params) :
    (∀ M ∈ executedVars (view.Parse E file params funcmap h).events,
        (∀ k, k ∈ (view.Parse E file params funcmap h).heap.read M
            ↔ k ∈ h.read (some view.data) ∨ k ∈ h.read params)
          ∧ (∀ k, k ∈ h.read (some view.data) →
              ((view.Parse E file params funcmap h).heap.read M).lookup k
                = (h.read (some view.data)).lookup k)
          ∧ (∀ k, k ∈ h.read params →
              ((view.Parse E file params funcmap h).heap.read M).lookup k
                = (h.read params).lookup k)
          ∧ ((h.read (some view.data)).len = 0 →
              (view.Parse E file params funcmap h).heap.read M = h.read params)
          ∧ ((h.read params).len = 0 →
              (view.Parse E file params funcmap h).heap.read M = h.read (some view.data)))
      ∧ (∀ M ∈ executedVars (view.ParseContent E content params funcmap h).events,
        (∀ k, k ∈ (view.ParseContent E content params funcmap h).heap.read M
            ↔ k ∈ h.read (some view.data) ∨ k ∈ h.read params)
          ∧ (∀ k, k ∈ h.read (some view.data) →
              ((view.ParseContent E content params funcmap h).heap.read M).lookup k
                = (h.read (some view.data)).lookup k)
          ∧ (∀ k, k ∈ h.read params →
              ((view.ParseContent E content params funcmap h).heap.read M).lookup k
                = (h.read params).lookup k)
          ∧ ((h.read (some view.data)).len = 0 →
              (view.ParseContent E content params funcmap h).heap.read M = h.read params)
          ∧ ((h.read params).len = 0 →
              (view.ParseContent E content params funcmap h).heap.read M
                = h.read (some view.data)))
      ∧ (E.spathSearch view.paths file ≠ "" →
          E.parse (view.tplobj (E.spathSearch view.paths file) funcmap h)
            (E.getContents (E.spathSearch view.paths file)) = none →
          ∃ M, executedVars (view.Parse E file params funcmap h).events = [M])
      ∧ (E.parse (view.tplobj (E.hashName content) funcmap h) content = none →
          ∃ M, executedVars (view.ParseContent E content params funcmap h).events = [M]) := by
  refine ⟨?_, ?_, ?_, ?_⟩
  · exact forall_executed_of_merge view params h _
      (fun g M =>
        (∀ k, k ∈ g.read M ↔ k ∈ h.read (some view.data) ∨ k ∈ h.read params)
          ∧ (∀ k, k ∈ h.read (some view.data) →
              (g.read M).lookup k = (h.read (some view.data)).lookup k)
          ∧ (∀ k, k ∈ h.read params → (g.read M).lookup k = (h.read params).lookup k)
          ∧ ((h.read (some view.data)).len = 0 → g.read M = h.read params)
          ∧ ((h.read params).len = 0 → g.read M = h.read (some view.data)))
      (Parse_executedVars E view file params funcmap h) (mergeVars_disjoint view params h hdisj)
  · exact forall_executed_of_merge view params h _
      (fun g M =>
        (∀ k, k ∈ g.read M ↔ k ∈ h.read (some view.data) ∨ k ∈ h.read params)
          ∧ (∀ k, k ∈ h.read (some view.data) →
              (g.read M).lookup k = (h.read (some view.data)).lookup k)
          ∧ (∀ k, k ∈ h.read params → (g.read M).lookup k = (h.read params).lookup k)
          ∧ ((h.read (some view.data)).len = 0 → g.read M = h.read params)
          ∧ ((h.read params).len = 0 → g.read M = h.read (some view.data)))
      (ParseContent_executedVars E view content params funcmap h)
      (mergeVars_disjoint view params h hdisj)
  · intro hpath hparse
    exact ⟨_, Parse_executedVars_of_compiled E view file params funcmap h hpath hparse⟩
  · intro hparse
    exact ⟨_, ParseContent_executedVars_of_compiled E view content params funcmap h hparse⟩

/-- Witness for `C3_disjoint_merge_is_union` on `demoView` (variables
`{a: "global"}`) and the caller mapping `{b: "caller"}` at address 2. -/
theorem C3_disjoint_merge_is_union_witness :
    (∀ M ∈ executedVars (demoView.Parse demoCollab "x.tpl" (some 2) [] demoHeapDisjoint).events,
        ∀ k, k ∈ (demoView.Parse demoCollab "x.tpl" (some 2) [] demoHeapDisjoint).heap.read M
            ↔ k ∈ demoHeapDisjoint.read (some demoView.data)
              ∨ k ∈ demoHeapDisjoint.read (some 2))
      ∧ ∃ M, executedVars
          (demoView.Parse demoCollab "x.tpl" (some 2) [] demoHeapDisjoint).events = [M] :=
  have hdisj : ∀ k, k ∈ demoHeapDisjoint.read (some demoView.data) →
      k ∉ demoHeapDisjoint.read (some 2) := by
    intro k hk
    have hk2 : k ∈ ["a"] := hk
    rw [List.mem_singleton] at hk2
    rw [hk2]
    decide
  have w := C3_disjoint_merge_is_union demoCollab demoView "x.tpl" "a" (some 2) []
    demoHeapDisjoint hdisj
  ⟨fun M hM => (w.1 M hM).1, w.2.2.1 (by decide) (by decide)⟩

/-! ## C4: the function table handed to the engine -/

/-- The function table of `tplobj`: the View's functions, overridden by the first
override map when there is one. -/
theorem tplobj_funcs_lookup (view : View) (name : String) (funcmap : List (Option Addr))
    (h : Heap) (k : String) :
    (view.tplobj name funcmap h).funcs.lookup k
      = match funcmap with
        | [] => (h.read (some view.funcmap)).lookup k
        | O :: _ =>
          if k ∈ h.read O then (h.read O).lookup k
          else (h.read (some view.funcmap)).lookup k := by
  have hbase : ∀ (F : GoMap),
      (F.entries.foldl (fun acc kv => acc.insert kv.1 kv.2) (∅ : GoMap)).lookup k
        = F.lookup k := by
    intro F
    rw [lookup_foldl_insert _ _ _ F.nodupKeys]
    by_cases hk : k ∈ F.entries.keys
    · rw [if_pos hk]; rfl
    · rw [if_neg hk, AList.lookup_empty, eq_comm, AList.lookup_eq_none]
      exact hk
  cases funcmap with
  | nil =>
    simp only [View.tplobj, Template.Funcs, Template.Delims, Template.New]
    exact hbase _
  | cons O rest =>
    simp only [View.tplobj, Template.Funcs, Template.Delims, Template.New]
    rw [lookup_foldl_insert _ _ _ (h.read O).nodupKeys, hbase]
    by_cases hk : k ∈ h.read O
    · have hk2 : k ∈ (h.read O).entries.keys := hk
      rw [if_pos hk, if_pos hk2]; rfl
    · have hk2 : k ∉ (h.read O).entries.keys := hk
      rw [if_neg hk, if_neg hk2]

theorem Parse_parsedTemplates (E : Collab) (view : View) (file : String)
    (params : Option Addr) (funcmap : List (Option Addr)) (h : Heap) :
    parsedTemplates (view.Parse E file params funcmap h).events
      = if E.spathSearch view.paths file = "" then []
        else [view.tplobj (E.spathSearch view.paths file) funcmap h] := by
  by_cases hpath : E.spathSearch view.paths file = ""
  · rw [Parse_notFound E view file params funcmap h hpath, if_pos hpath]; rfl
  · rw [if_neg hpath]
    cases hparse : E.parse (view.tplobj (E.spathSearch view.paths file) funcmap h)
        (E.getContents (E.spathSearch view.paths file)) with
    | some e =>
      rw [Parse_parseError E view file params funcmap h e hpath hparse]; rfl
    | none =>
      obtain ⟨_, he, _⟩ := Parse_executed E view file params funcmap h hpath hparse
      rw [he]
      simp [parsedTemplates_append, mergeVars_parsedTemplates, parsedTemplates]

theorem ParseContent_parsedTemplates (E : Collab) (view : View) (content : String)
    (params : Option Addr) (funcmap : List (Option Addr)) (h : Heap) :
    parsedTemplates (view.ParseContent E content params funcmap h).events
      = [view.tplobj (E.hashName content) funcmap h] := by
  cases hparse : E.parse (view.tplobj (E.hashName content) funcmap h) content with
  | some e =>
    rw [ParseContent_parseError E view content params funcmap h e hparse]; rfl
  | none =>
    obtain ⟨_, he, _⟩ := ParseContent_executed E view content params funcmap h hparse
    rw [he]
    simp [parsedTemplates_append, mergeVars_parsedTemplates, parsedTemplates]

/-- C4.  With the engine's `Funcs` adding entries and overwriting by name, every
template object that `Parse` and `ParseContent` hand to the engine's `Parse`
carries this function table: with no override mapping, each name has what the
View's functions F give it (and is absent when F lacks it); with override
mappings, the first one O decides: each name of O has O's callable, each name
of F not in O has F's callable, no other name is present, and the mappings
after the first play no part.  `ParseContent` always hands over exactly one
template object, `Parse` exactly one when the file is found. -/
theorem C4_function_table_layering (E : Collab) (view : View) (file content : String)
    (params : Option Addr) (funcmap : List (Option Addr)) (h : Heap) :
    (∀ tpl ∈ parsedTemplates (view.Parse E file params funcmap h).events
          ++ parsedTemplates (view.ParseContent E content params funcmap h).events,
        (funcmap = [] → ∀ k, tpl.funcs.lookup k = (h.read (some view.funcmap)).lookup k)
          ∧ ∀ O rest, funcmap = O :: rest →
              (∀ k, k ∈ h.read O → tpl.funcs.lookup k = (h.read O).lookup k)
              ∧ (∀ k, k ∈ h.read (some view.funcmap) → k ∉ h.read O →
                  tpl.funcs.lookup k = (h.read (some view.funcmap)).lookup k)
              ∧ (∀ k, k ∈ tpl.funcs → k ∈ h.read O ∨ k ∈ h.read (some view.funcmap)))
      ∧ (E.spathSearch view.paths file ≠ "" →
          ∃ tpl, parsedTemplates (view.Parse E file params funcmap h).events = [tpl])
      ∧ (∃ tpl, parsedTemplates (view.ParseContent E content params funcmap h).events = [tpl])
      := by
  have key : ∀ name, (funcmap = [] → ∀ k, (view.tplobj name funcmap h).funcs.lookup k
        = (h.read (some view.funcmap)).lookup k)
      ∧ ∀ O rest, funcmap = O :: rest →
          (∀ k, k ∈ h.read O → (view.tplobj name funcmap h).funcs.lookup k
            = (h.read O).lookup k)
          ∧ (∀ k, k ∈ h.read (some view.funcmap) → k ∉ h.read O →
              (view.tplobj name funcmap h).funcs.lookup k
                = (h.read (some view.funcmap)).lookup k)
          ∧ (∀ k, k ∈ (view.tplobj name funcmap h).funcs →
              k ∈ h.read O ∨ k ∈ h.read (some view.funcmap)) := by
    intro name
    constructor
    · intro hnil k
      rw [tplobj_funcs_lookup, hnil]
    · intro O rest hcons
      refine ⟨?_, ?_, ?_⟩
      · intro k hk
        rw [tplobj_funcs_lookup, hcons]
        simp only [if_pos hk]
      · intro k _ hk
        rw [tplobj_funcs_lookup, hcons]
        simp only [if_neg hk]
      · intro k hk
        rw [mem_iff_lookup_isSome, tplobj_funcs_lookup, hcons] at hk
        by_cases hO : k ∈ h.read O
        · exact Or.inl hO
        · simp only [if_neg hO] at hk
          exact Or.inr ((mem_iff_lookup_isSome _ _).mpr hk)
  refine ⟨?_, ?_, ?_⟩
  · intro tpl htpl
    rw [List.mem_append, Parse_parsedTemplates, ParseContent_parsedTemplates] at htpl
    rcases htpl with htpl | htpl
    · by_cases hpath : E.spathSearch view.paths file = ""
      · rw [if_pos hpath] at htpl; cases htpl
      · rw [if_neg hpath, List.mem_singleton] at htpl
        rw [htpl]; exact key _
    · rw [List.mem_singleton] at htpl
      rw [htpl]; exact key _
  · intro hpath
    exact ⟨_, by rw [Parse_parsedTemplates, if_neg hpath]⟩
  · exact ⟨_, ParseContent_parsedTemplates E view content params funcmap h⟩

/-- Witness for `C4_function_table_layering` on `demoView` with the override
mapping `{text: func 7, upper: func 8}` at address 3, which replaces the
built-in `text` and adds `upper`. -/
theorem C4_function_table_layering_witness :
    (∀ tpl ∈ parsedTemplates
          (demoView.Parse demoCollab "x.tpl" (some 2) [some 3, none] demoHeapFuncs).events
          ++ parsedTemplates
            (demoView.ParseContent demoCollab "a" (some 2) [some 3, none] demoHeapFuncs).events,
        ∀ k, k ∈ demoHeapFuncs.read (some 3) →
          tpl.funcs.lookup k = (demoHeapFuncs.read (some 3)).lookup k)
      ∧ ∃ tpl, parsedTemplates
          (demoView.Parse demoCollab "x.tpl" (some 2) [some 3, none] demoHeapFuncs).events
            = [tpl] :=
  have w := C4_function_table_layering demoCollab demoView "x.tpl" "a" (some 2)
    [some 3, none] demoHeapFuncs
  ⟨fun tpl htpl => ((w.1 tpl htpl).2 (some 3) [none] rfl).1, w.2.1 (by decide)⟩

/-! ## C5 and C6: errors of `Parse`, and what `funcInclude` makes of them -/

/-- The return value of `Parse` when the file is found: bytes and no error, or no
bytes and the error the engine returned from compiling or from executing. -/
theorem Parse_ret_found (E : Collab) (view : View) (file : String) (params : Option Addr)
    (funcmap : List (Option Addr)) (h : Heap) (hpath : E.spathSearch view.paths file ≠ "") :
    (∃ bytes, (view.Parse E file params funcmap h).ret = (some bytes, none))
      ∨ ∃ e, (view.Parse E file params funcmap h).ret = (none, some (.ext e))
          ∧ (E.parse (view.tplobj (E.spathSearch view.paths file) funcmap h)
                (E.getContents (E.spathSearch view.paths file)) = some e
              ∨ (E.parse (view.tplobj (E.spathSearch view.paths file) funcmap h)
                    (E.getContents (E.spathSearch view.paths file)) = none
                  ∧ E.execute (view.tplobj (E.spathSearch view.paths file) funcmap h)
                      (E.getContents (E.spathSearch view.paths file))
                      ((view.mergeVars params h).ret.map fun a =>
                        (view.mergeVars params h).heap.read (some a)) = .error e)) := by
  cases hparse : E.parse (view.tplobj (E.spathSearch view.paths file) funcmap h)
      (E.getContents (E.spathSearch view.paths file)) with
  | some e =>
    right
    rw [Parse_parseError E view file params funcmap h e hpath hparse]
    exact ⟨e, rfl, Or.inl rfl⟩
  | none =>
    obtain ⟨_, _, hr⟩ := Parse_executed E view file params funcmap h hpath hparse
    cases hexec : E.execute (view.tplobj (E.spathSearch view.paths file) funcmap h)
        (E.getContents (E.spathSearch view.paths file))
        ((view.mergeVars params h).ret.map fun a =>
          (view.mergeVars params h).heap.read (some a)) with
    | error e =>
      right
      rw [hexec] at hr
      exact ⟨e, hr, Or.inr ⟨rfl, rfl⟩⟩
    | ok bytes =>
      left
      rw [hexec] at hr
      exact ⟨bytes, hr⟩

/-- Either bytes and no error, or no bytes and an error: what `Parse` returns. -/
theorem Parse_ret_shape (E : Collab) (view : View) (file : String) (params : Option Addr)
    (funcmap : List (Option Addr)) (h : Heap) :
    (∃ bytes, (view.Parse E file params funcmap h).ret = (some bytes, none))
      ∨ ∃ err, (view.Parse E file params funcmap h).ret = (none, some err) := by
  by_cases hpath : E.spathSearch view.paths file = ""
  · right
    rw [Parse_notFound E view file params funcmap h hpath]
    exact ⟨_, rfl⟩
  · rcases Parse_ret_found E view file params funcmap h hpath with hb | ⟨e, he, _⟩
    · exact Or.inl hb
    · exact Or.inr ⟨_, he⟩

/-- C5.  For every file name and every list of data mappings, `funcInclude` does
what `Parse(file, m)` does, `m` being the first data mapping when there is one
and nil otherwise, with no override functions.  When that render returns an
error, `funcInclude` returns the message text of the error as its markup; when
it returns none, `funcInclude` returns exactly the rendered bytes.  The result
is a plain markup value in both cases.  For a file the path search does not
find, the markup is the text `tpl "<file>" not found`. -/
theorem C5_include_fails_inline (E : Collab) (view : View) (file : String)
    (data : List (Option Addr)) (h : Heap) :
    (∀ m, (data = [] ∧ m = none) ∨ (∃ rest, data = m :: rest) →
        (view.funcInclude E file data h).heap = (view.Parse E file m [] h).heap
          ∧ (view.funcInclude E file data h).events = (view.Parse E file m [] h).events
          ∧ (∀ e, (view.Parse E file m [] h).ret.2 = some e →
              (view.funcInclude E file data h).ret = e.Error)
          ∧ ((view.Parse E file m [] h).ret.2 = none →
              ∃ bytes, (view.Parse E file m [] h).ret = (some bytes, none)
                ∧ (view.funcInclude E file data h).ret = bytes))
      ∧ (E.spathSearch view.paths file = "" →
          (view.funcInclude E file data h).ret = "tpl \"" ++ file ++ "\" not found") := by
  have core : ∀ m, (match data with | [] => none | d :: _ => d) = m →
      (view.funcInclude E file data h).heap = (view.Parse E file m [] h).heap
        ∧ (view.funcInclude E file data h).events = (view.Parse E file m [] h).events
        ∧ (∀ e, (view.Parse E file m [] h).ret.2 = some e →
            (view.funcInclude E file data h).ret = e.Error)
        ∧ ((view.Parse E file m [] h).ret.2 = none →
            ∃ bytes, (view.Parse E file m [] h).ret = (some bytes, none)
              ∧ (view.funcInclude E file data h).ret = bytes) := by
    intro m hm
    unfold View.funcInclude
    simp only [hm]
    rcases Parse_ret_shape E view file m [] h with ⟨bytes, hb⟩ | ⟨err, he⟩
    · rw [hb]
      refine ⟨rfl, rfl, ?_, ?_⟩
      · intro e hc; cases hc
      · intro _; exact ⟨bytes, rfl, rfl⟩
    · rw [he]
      refine ⟨rfl, rfl, ?_, ?_⟩
      · intro e hc; cases hc; rfl
      · intro hc; cases hc
  constructor
  · intro m hm
    rcases hm with ⟨hd, hmn⟩ | ⟨rest, hd⟩
    · exact core m (by rw [hd, hmn])
    · exact core m (by rw [hd])
  · intro hpath
    cases data with
    | nil =>
      exact (core none rfl).2.2.1 _ (by rw [Parse_notFound E view file _ [] h hpath])
    | cons d rest =>
      exact (core d rfl).2.2.1 _ (by rw [Parse_notFound E view file _ [] h hpath])

/-- Witness for `C5_include_fails_inline`: including `missing.tpl`, which the
path search does not find, yields the not-found text. -/
theorem C5_include_fails_inline_witness :
    (demoView.funcInclude demoCollab "missing.tpl" [some 2] demoHeapCaller).ret
      = "tpl \"" ++ "missing.tpl" ++ "\" not found" :=
  (C5_include_fails_inline demoCollab demoView "missing.tpl" [some 2] demoHeapCaller).2
    (by decide)

/-- C6.  When the View's path search returns the empty path for the file,
`Parse` returns no bytes and the error made with `errors.New` whose message is
`tpl "<file>" not found`; its only event is the search (no content is read,
nothing is compiled or executed) and the heap is as before.  When the search
returns a non-empty path, `Parse` returns no error made by this package: an
error it returns is the error the engine's `Parse` returned, or, the template
having compiled, the error the engine's `Execute` returned, as it was. -/
theorem C6_not_found_iff_search_empty (E : Collab) (view : View) (file : String)
    (params : Option Addr) (funcmap : List (Option Addr)) (h : Heap) :
    (E.spathSearch view.paths file = "" →
        (view.Parse E file params funcmap h).ret
            = (none, some (.errorsNew ("tpl \"" ++ file ++ "\" not found")))
          ∧ (view.Parse E file params funcmap h).ret.2.map Error.Error
              = some ("tpl \"" ++ file ++ "\" not found")
          ∧ (view.Parse E file params funcmap h).events = [.search file]
          ∧ (∀ ev ∈ (view.Parse E file params funcmap h).events, ev.isEngineWork = false)
          ∧ (view.Parse E file params funcmap h).heap = h)
      ∧ (E.spathSearch view.paths file ≠ "" →
          (∀ msg, (view.Parse E file params funcmap h).ret.2 ≠ some (.errorsNew msg))
          ∧ ∀ err, (view.Parse E file params funcmap h).ret.2 = some err →
              ∃ e, err = .ext e
                ∧ (E.parse (view.tplobj (E.spathSearch view.paths file) funcmap h)
                      (E.getContents (E.spathSearch view.paths file)) = some e
                    ∨ (E.parse (view.tplobj (E.spathSearch view.paths file) funcmap h)
                          (E.getContents (E.spathSearch view.paths file)) = none
                        ∧ E.execute (view.tplobj (E.spathSearch view.paths file) funcmap h)
                            (E.getContents (E.spathSearch view.paths file))
                            ((view.mergeVars params h).ret.map fun a =>
                              (view.mergeVars params h).heap.read (some a)) = .error e))) := by
  constructor
  · intro hpath
    rw [Parse_notFound E view file params funcmap h hpath]
    refine ⟨rfl, rfl, rfl, ?_, rfl⟩
    intro ev hev
    simp only [List.mem_singleton] at hev
    rw [hev]; rfl
  · intro hpath
    rcases Parse_ret_found E view file params funcmap h hpath with ⟨bytes, hb⟩ | ⟨e, he, hsrc⟩
    · rw [hb]
      exact ⟨fun msg hc => (by cases hc), fun err hc => (by cases hc)⟩
    · rw [he]
      refine ⟨fun msg hc => (by cases hc), ?_⟩
      intro err hc
      cases hc
      exact ⟨e, rfl, hsrc⟩

/-- Witness for `C6_not_found_iff_search_empty`: `missing.tpl` is not found and
`x.tpl` is. -/
theorem C6_not_found_iff_search_empty_witness :
    (demoView.Parse demoCollab "missing.tpl" (some 2) [] demoHeapCaller).ret
        = (none, some (.errorsNew ("tpl \"" ++ "missing.tpl" ++ "\" not found")))
      ∧ ∀ msg, (demoView.Parse demoCollab "x.tpl" (some 2) [] demoHeapCaller).ret.2
          ≠ some (.errorsNew msg) :=
  ⟨((C6_not_found_iff_search_empty demoCollab demoView "missing.tpl" (some 2) []
      demoHeapCaller).1 (by decide)).1,
    ((C6_not_found_iff_search_empty demoCollab demoView "x.tpl" (some 2) []
      demoHeapCaller).2 (by decide)).1⟩

/-! ## C9: the View that `New` returns -/

theorem mem_singleton_iff (a k : String) (b : Value) :
    k ∈ (AList.singleton a b : GoMap) ↔ k = a := by
  rw [AList.mem_keys, AList.keys_singleton, List.mem_singleton]

theorem lookup_singleton (a : String) (b : Value) :
    (AList.singleton a b : GoMap).lookup a = some b := by
  rw [← AList.insert_empty, AList.lookup_insert]

theorem New_delimiters (E : Collab) (path : String) (h : Heap) :
    (New E path h).ret.delimiters = ["\x7b\x7b", "\x7d\x7d"] := by
  simp [New, View.SetDelimiters]

/-- C9.  For every root path (and every collaborator behaviour and starting
heap) the View returned by `New` has a variables map with no entries, a
functions map whose keys are exactly `text`, `html` and `include`, bound to the
method values `funcText`, `funcHtml` and `funcInclude` of this very View, and
the delimiter pair `("{{", "}}")`. -/
theorem C9_new_view_initial_state (E : Collab) (path : String) (h : Heap) :
    (New E path h).heap.read (some (New E path h).ret.data) = ∅
      ∧ (∀ k, k ∈ (New E path h).heap.read (some (New E path h).ret.funcmap)
          ↔ k = "text" ∨ k = "html" ∨ k = "include")
      ∧ ((New E path h).heap.read (some (New E path h).ret.funcmap)).lookup "text"
          = some (.method (New E path h).ret.self .funcText)
      ∧ ((New E path h).heap.read (some (New E path h).ret.funcmap)).lookup "html"
          = some (.method (New E path h).ret.self .funcHtml)
      ∧ ((New E path h).heap.read (some (New E path h).ret.funcmap)).lookup "include"
          = some (.method (New E path h).ret.self .funcInclude)
      ∧ (New E path h).ret.delimiters = ["\x7b\x7b", "\x7d\x7d"]
      ∧ (New E path h).ret.data ≠ (New E path h).ret.funcmap
      ∧ (New E path h).ret.self = h.objects
      ∧ (New E path h).heap.objects = h.objects + 1 := by
  have hne : h.next ≠ h.next + 1 := Nat.ne_of_lt (Nat.lt_succ_self _)
  have hne2 : h.next + 1 ≠ h.next := fun hc => hne hc.symm
  have h1 : ("html" : String) ≠ "text" := by decide
  have h2 : ("include" : String) ≠ "text" := by decide
  have h3 : ("include" : String) ≠ "html" := by decide
  have h4 : ("text" : String) ≠ "html" := by decide
  have h5 : ("text" : String) ≠ "include" := by decide
  have h6 : ("html" : String) ≠ "include" := by decide
  refine ⟨?_, ?_, ?_, ?_, ?_, ?_, ?_, ?_, ?_⟩
  · simp [New, View.BindFunc, View.SetDelimiters, Heap.makeMap, Heap.store, Heap.read,
      Function.update, hne]
  · intro k
    simp [New, View.BindFunc, View.SetDelimiters, Heap.makeMap, Heap.store, Heap.read,
      Function.update, hne, mem_singleton_iff]
    tauto
  · simp [New, View.BindFunc, View.SetDelimiters, Heap.makeMap, Heap.store, Heap.read,
      Function.update, hne, AList.lookup_insert_ne h4, AList.lookup_insert_ne h5,
      lookup_singleton]
  · simp [New, View.BindFunc, View.SetDelimiters, Heap.makeMap, Heap.store, Heap.read,
      Function.update, hne, AList.lookup_insert_ne h6]
  · simp [New, View.BindFunc, View.SetDelimiters, Heap.makeMap, Heap.store, Heap.read,
      Function.update, hne]
  · simp [New, View.SetDelimiters]
  · simp [New, View.SetDelimiters, Heap.makeMap]
  · simp [New, View.SetDelimiters, Heap.makeMap]
  · simp [New, View.BindFunc, View.SetDelimiters, Heap.makeMap, Heap.store]

/-! ## C7: the delimiter slice -/

theorem step_delimiters (E : Collab) (st : View × Heap) (op : Op) :
    (step E st op).1.delimiters
      = match op with
        | .setDelimiters left right => (st.1.delimiters.set 0 left).set 1 right
        | _ => st.1.delimiters := by
  cases op <;> rfl

theorem set_set_of_length_two (l : List String) (left right : String) (hl : l.length = 2) :
    (l.set 0 left).set 1 right = [left, right] := by
  match l, hl with
  | [_, _], _ => rfl

/-- The delimiter slice keeps two elements along any sequence of operations, and
keeps two non-empty ones when every `SetDelimiters` call gets non-empty strings. -/
theorem run_delimiters (E : Collab) :
    ∀ (ops : List Op) (st : View × Heap), st.1.delimiters.length = 2 →
      (run E st ops).1.delimiters.length = 2
        ∧ (delimArgsNonEmpty ops = true → (∀ s ∈ st.1.delimiters, s ≠ "") →
            ∀ s ∈ (run E st ops).1.delimiters, s ≠ "") := by
  intro ops
  induction ops with
  | nil => intro st hl; exact ⟨hl, fun _ hne => hne⟩
  | cons op rest ih =>
    intro st hl
    have hlen : (step E st op).1.delimiters.length = 2 := by
      rw [step_delimiters]
      cases op <;> simp [hl]
    obtain ⟨ih1, ih2⟩ := ih (step E st op) hlen
    refine ⟨ih1, ?_⟩
    intro hargs hne
    have hrest : delimArgsNonEmpty rest = true := by
      cases op with
      | setDelimiters left right =>
        simp only [delimArgsNonEmpty, Bool.and_eq_true] at hargs
        exact hargs.2
      | _ => exact hargs
    apply ih2 hrest
    intro s hs
    rw [step_delimiters] at hs
    cases op with
    | setDelimiters left right =>
      simp only [set_set_of_length_two _ left right hl] at hs
      simp only [delimArgsNonEmpty, Bool.and_eq_true, bne_iff_ne, ne_eq] at hargs
      simp only [List.mem_cons, List.mem_singleton, List.not_mem_nil, or_false] at hs
      rcases hs with hs | hs
      · rw [hs]; exact hargs.1.1
      · rw [hs]; exact hargs.1.2
    | _ => exact hne s hs

/-- C7, counterexample.  On the View `demoView` made by `New`, the single public
operation `SetDelimiters("", "")` leaves the delimiter slice `["", ""]`: two
elements, neither of them a non-empty string. -/
theorem C7_empty_delimiters_accepted :
    (run demoCollab ((New demoCollab "/v" emptyHeap).ret, (New demoCollab "/v" emptyHeap).heap)
        [.setDelimiters "" ""]).1.delimiters = ["", ""]
      ∧ ¬ ∀ s ∈ (run demoCollab
          ((New demoCollab "/v" emptyHeap).ret, (New demoCollab "/v" emptyHeap).heap)
          [.setDelimiters "" ""]).1.delimiters, s ≠ "" := by
  decide

/-- C7, as amended.  For every View produced by `New` and every finite sequence
of public operations applied to it afterwards, the delimiter slice has exactly
2 elements; both are non-empty strings provided every `SetDelimiters` call of
the sequence was given two non-empty strings. -/
theorem C7_delimiters_two_elements (E : Collab) (path : String) (h : Heap) (ops : List Op) :
    (run E ((New E path h).ret, (New E path h).heap) ops).1.delimiters.length = 2
      ∧ (delimArgsNonEmpty ops = true →
          ∀ s ∈ (run E ((New E path h).ret, (New E path h).heap) ops).1.delimiters, s ≠ "") := by
  have hd : (New E path h).ret.delimiters = ["\x7b\x7b", "\x7d\x7d"] :=
    New_delimiters E path h
  have hl : (New E path h).ret.delimiters.length = 2 := by rw [hd]; rfl
  obtain ⟨h1, h2⟩ := run_delimiters E ops ((New E path h).ret, (New E path h).heap) hl
  refine ⟨h1, fun hargs => h2 hargs ?_⟩
  intro s hs
  have hs2 : s ∈ ["\x7b\x7b", "\x7d\x7d"] := by rw [← hd]; exact hs
  simp only [List.mem_cons, List.mem_singleton, List.not_mem_nil, or_false] at hs2
  rcases hs2 with hs2 | hs2 <;> rw [hs2] <;> decide

/-- Witness for `C7_delimiters_two_elements`: a sequence that sets the
delimiters to `<%` and `%>` between other operations. -/
theorem C7_delimiters_two_elements_witness :
    delimArgsNonEmpty [.assign "a" (.str "global"), .setDelimiters "<%" "%>", .addPath "/w",
        .parse "x.tpl" none []] = true
      ∧ (run demoCollab
          ((New demoCollab "/v" emptyHeap).ret, (New demoCollab "/v" emptyHeap).heap)
          [.assign "a" (.str "global"), .setDelimiters "<%" "%>", .addPath "/w",
            .parse "x.tpl" none []]).1.delimiters.length = 2
      ∧ ∀ s ∈ (run demoCollab
          ((New demoCollab "/v" emptyHeap).ret, (New demoCollab "/v" emptyHeap).heap)
          [.assign "a" (.str "global"), .setDelimiters "<%" "%>", .addPath "/w",
            .parse "x.tpl" none []]).1.delimiters, s ≠ "" :=
  have w := C7_delimiters_two_elements demoCollab "/v" emptyHeap
    [.assign "a" (.str "global"), .setDelimiters "<%" "%>", .addPath "/w",
      .parse "x.tpl" none []]
  ⟨by decide, w.1, w.2 (by decide)⟩

/-! ## C8: binding variables -/

theorem rangeStore_read_ref_ne (dst : Addr) (r : Option Addr) (hr : r ≠ some dst)
    (src : List (Sigma fun _ : String => Value)) (h : Heap) :
    (h.rangeStore dst src).read r = h.read r := by
  cases r with
  | none => rfl
  | some b =>
    have hb : b ≠ dst := fun hc => hr (by rw [hc])
    simp [Heap.read, rangeStore_next, rangeStore_maps_ne dst b hb]

/-- The variables of the View after `Assigns`: a key of the argument has the
value the argument gives it, any other key keeps the value it had. -/
theorem Assigns_lookup (view : View) (data : Option Addr) (h : Heap) (k : String)
    (hdata : view.data < h.next) :
    ((view.Assigns data h).heap.read (some view.data)).lookup k
      = if k ∈ h.read data then (h.read data).lookup k
        else (h.read (some view.data)).lookup k := by
  have hheap : (view.Assigns data h).heap = h.rangeStore view.data (h.read data).entries := rfl
  have hread : ∀ g : Heap, g.next = h.next → g.read (some view.data) = g.maps view.data := by
    intro g hg
    simp [Heap.read, hg, hdata]
  rw [hheap, hread _ (rangeStore_next _ _ _), rangeStore_maps_same _ _ _ hdata,
    lookup_foldl_insert _ _ _ (h.read data).nodupKeys, hread h rfl]
  by_cases hk : k ∈ h.read data
  · have hk2 : k ∈ (h.read data).entries.keys := hk
    rw [if_pos hk, if_pos hk2]; rfl
  · have hk2 : k ∉ (h.read data).entries.keys := hk
    rw [if_neg hk, if_neg hk2]

/-- C8.  For every View whose variables map is allocated and every mapping `m`
(nil included): after `Assigns(m)` the variables are the old ones overridden by
`m` (each key of `m` has the value of `m`, each other key of the old variables
keeps its value, no other key is present); no other map object changes, so the
functions are as before; the View value itself, with its delimiters and search
paths, is the same; `m` reads as before.  `Assign(k, v)` leaves the same heap
and performs the same events as `Assigns` of a mapping whose only entry is
`k: v`, and binds `k` to `v` while every other key keeps its value. -/
theorem C8_assigns_overrides (E : Collab) (view : View) (m : Option Addr) (key : String)
    (value : Value) (h : Heap) (hdata : view.data < h.next) :
    (∀ k, ((view.Assigns m h).heap.read (some view.data)).lookup k
        = if k ∈ h.read m then (h.read m).lookup k else (h.read (some view.data)).lookup k)
      ∧ (∀ k, k ∈ (view.Assigns m h).heap.read (some view.data)
          ↔ k ∈ h.read m ∨ k ∈ h.read (some view.data))
      ∧ (∀ a, a ≠ view.data → (view.Assigns m h).heap.maps a = h.maps a)
      ∧ (view.Assigns m h).heap.next = h.next
      ∧ (view.funcmap ≠ view.data →
          (view.Assigns m h).heap.read (some view.funcmap) = h.read (some view.funcmap))
      ∧ (step E (view, h) (.assigns m)).1 = view
      ∧ (step E (view, h) (.assign key value)).1 = view
      ∧ (∀ k, ((view.Assigns m h).heap.read m).lookup k = (h.read m).lookup k)
      ∧ (m ≠ some view.data → (view.Assigns m h).heap.read m = h.read m)
      ∧ ((h.read m).entries = [⟨key, value⟩] →
          (view.Assign key value h).heap = (view.Assigns m h).heap
            ∧ (view.Assign key value h).events = (view.Assigns m h).events)
      ∧ ((view.Assign key value h).heap.read (some view.data)).lookup key = some value
      ∧ (∀ k, k ≠ key → ((view.Assign key value h).heap.read (some view.data)).lookup k
          = (h.read (some view.data)).lookup k)
      ∧ (∀ a, a ≠ view.data → (view.Assign key value h).heap.maps a = h.maps a) := by
  have hheap : (view.Assigns m h).heap = h.rangeStore view.data (h.read m).entries := rfl
  have hheapA : (view.Assign key value h).heap = h.store view.data key value := rfl
  refine ⟨fun k => Assigns_lookup view m h k hdata, ?_, ?_, ?_, ?_, rfl, rfl, ?_, ?_, ?_, ?_,
    ?_, ?_⟩
  · intro k
    rw [mem_iff_lookup_isSome, Assigns_lookup view m h k hdata]
    by_cases hk : k ∈ h.read m
    · simp only [hk, if_true, true_or, iff_true]
      exact (mem_iff_lookup_isSome _ _).mp hk
    · simp only [hk, if_false, false_or]
      exact (mem_iff_lookup_isSome _ _).symm
  · intro a ha
    rw [hheap, rangeStore_maps_ne _ _ ha]
  · rw [hheap, rangeStore_next]
  · intro hne
    rw [hheap]
    exact rangeStore_read_ref_ne _ _ (fun hc => hne (Option.some.inj hc)) _ _
  · intro k
    by_cases hm : m = some view.data
    · rw [hm, Assigns_lookup view (some view.data) h k hdata]
      by_cases hk : k ∈ h.read (some view.data)
      · rw [if_pos hk]
      · rw [if_neg hk]
    · rw [hheap, rangeStore_read_ref_ne _ _ hm]
  · intro hm
    rw [hheap, rangeStore_read_ref_ne _ _ hm]
  · intro hent
    constructor
    · rw [hheap, hheapA, hent]; rfl
    · simp [View.Assign, View.Assigns, hent, rangeEvents]
  · rw [hheapA]
    simp only [Heap.read, store_next, hdata, if_true]
    rw [store_maps_same _ _ _ _ hdata, AList.lookup_insert]
  · intro k hk
    rw [hheapA]
    simp only [Heap.read, store_next, hdata, if_true]
    rw [store_maps_same _ _ _ _ hdata, AList.lookup_insert_ne hk]
  · intro a ha
    rw [hheapA, store_maps_ne _ _ _ _ _ ha]

/-- Witness for `C8_assigns_overrides`: `demoView` (variables `{a: "global"}`)
and the caller mapping `{a: "caller"}` at address 2, whose only entry is
`a: "caller"`. -/
theorem C8_assigns_overrides_witness :
    (∀ k, ((demoView.Assigns (some 2) demoHeapCaller).heap.read
          (some demoView.data)).lookup k
        = if k ∈ demoHeapCaller.read (some 2) then (demoHeapCaller.read (some 2)).lookup k
          else (demoHeapCaller.read (some demoView.data)).lookup k)
      ∧ (demoView.Assign "a" (.str "caller") demoHeapCaller).heap
          = (demoView.Assigns (some 2) demoHeapCaller).heap :=
  have w := C8_assigns_overrides demoCollab demoView (some 2) "a" (.str "caller")
    demoHeapCaller (by decide)
  ⟨w.1, (w.2.2.2.2.2.2.2.2.2.1 (by decide)).1⟩

/-! ## C10: stores and the exclusive lock -/

theorem writesUnderLock_rangeEvents (view : View) (dst : Addr)
    (src : List (Sigma fun _ : String => Value)) (rest : List Event) :
    writesUnderLock view true (rangeEvents dst src ++ rest)
      = writesUnderLock view true rest := by
  induction src with
  | nil => rfl
  | cons x xs ih =>
    show ((if dst = view.data ∨ dst = view.funcmap then true else true)
      && writesUnderLock view true (rangeEvents dst xs ++ rest)) = _
    rw [ih]
    simp

/-- The three mutators that take the lock store only while they hold it. -/
theorem locked_mutators (view : View) (key name : String) (value function : Value)
    (data : Option Addr) (h : Heap) :
    writesUnderLock view false (view.Assign key value h).events = true
      ∧ writesUnderLock view false (view.Assigns data h).events = true
      ∧ writesUnderLock view false (view.BindFunc name function h).events = true := by
  refine ⟨?_, ?_, ?_⟩
  · simp [View.Assign, writesUnderLock]
  · show writesUnderLock view true
      (rangeEvents view.data (h.read data).entries ++ [Event.unlock]) = true
    rw [writesUnderLock_rangeEvents]
    rfl
  · simp [View.BindFunc, writesUnderLock]

/-- C10, the code at the failing input.  `SetDelimiters("<%", "%>")` on the View
made by `New` performs two stores to the delimiter slice and no lock event, so
both stores happen while the exclusive lock is not held; `Assign`, `Assigns`
and `BindFunc` on the same View take the lock around their stores. -/
theorem C10_SetDelimiters_stores_unlocked :
    (demoView.SetDelimiters "<%" "%>" demoHeapCaller).events
        = [.delimStore 0 "<%", .delimStore 1 "%>"]
      ∧ writesUnderLock demoView false
          (demoView.SetDelimiters "<%" "%>" demoHeapCaller).events = false
      ∧ (demoView.SetDelimiters "<%" "%>" demoHeapCaller).ret.delimiters = ["<%", "%>"]
      ∧ writesUnderLock demoView false
          (demoView.Assign "a" (.str "x") demoHeapCaller).events = true
      ∧ writesUnderLock demoView false (demoView.Assigns (some 2) demoHeapCaller).events = true
      ∧ writesUnderLock demoView false
          (demoView.BindFunc "f" (.func 1) demoHeapCaller).events = true := by
  decide

end gview
